import Mathlib

/-!
# Verification of the incremental reconciliation engine of `medicaments_updater.py`

This file gives a shallow embedding of the core pipeline of
`scripts/medicaments_updater.py` (repository `MokokAf/PharmaDW`): sitemap
discovery, the fetch-or-reuse scheduler, the per-entity fetch-result fold,
absent-entity handling, the drop guard, and the final persistence decision,
together with theorems checking the natural-language specification against it.

Modelling conventions:
* Python dicts are association lists (`Dict α`) with first-occurrence keys;
  `dictUpdate` replaces in place or appends, as CPython dicts do.
* A `Record` (output dataset row) is opaque to the engine except for its
  `id`/`name` keys, which the engine uses for grouping and sorting; the rest of
  the payload is modelled by an abstract `payload : Nat`.
* `time.monotonic`/`now_iso()` timestamps are passed in as an opaque `now`
  string; network fetching is an explicit function argument (the external
  `FetchEntity` collaborator of the spec).
* Python float seconds (`--request-delay`, `--request-jitter`) are modelled as
  integers; the engine only ever tests their sign.  The float expression
  `(prev - new) / prev > 0.30` of the drop guard is modelled by the exact
  arithmetic comparison `30 * prev < 100 * (prev - new)`, which agrees with the
  rational reading of the source expression (a theorem below restates it as a
  ratio over `ℚ`).
* String comparison (`<` on `lastmod` strings, sort keys) is code-point
  lexicographic, as in Python; `str.lower()` is modelled on ASCII letters.
-/

namespace MedicamentsUpdater

/-! ## String utilities -/

/-- Lexicographic (code-point) comparison of character lists, Python's `<`
on strings. -/
def charListLt : List Char → List Char → Bool
  | [], [] => false
  | [], _ :: _ => true
  | _ :: _, [] => false
  | a :: as, b :: bs => if a < b then true else if b < a then false else charListLt as bs

/-- Python `a < b` on strings. -/
def strLt (a b : String) : Bool := charListLt a.data b.data

/-- Python `a <= b` on strings. -/
def strLe (a b : String) : Bool := strLt a b || a == b

/-- Python `str.lower()` (ASCII letters; sufficient for the engine's keys). -/
def lowerStr (s : String) : String := ⟨s.data.map Char.toLower⟩

/-! ## Python dicts as association lists -/

/-- A CPython dict: keys in first-insertion order, no duplicate keys. -/
abbrev Dict (α : Type) := List (String × α)

/-- `d[k]` lookup (`dict.get`). -/
def dictGet {α : Type} : Dict α → String → Option α
  | [], _ => none
  | (k', v) :: rest, k => if k' = k then some v else dictGet rest k

/-- `d[k] = v`: replace the value in place if the key exists, else append. -/
def dictUpdate {α : Type} : Dict α → String → α → Dict α
  | [], k, v => [(k, v)]
  | (k', v') :: rest, k, v =>
      if k' = k then (k, v) :: rest else (k', v') :: dictUpdate rest k v

/-- `list(d.values())`. -/
def dictValues {α : Type} (d : Dict α) : List α := d.map (·.2)

/-- `list(d.keys())`. -/
def dictKeys {α : Type} (d : Dict α) : List String := d.map (·.1)

/-! ## Data model -/

/-- One `<url>` tuple from a sub-sitemap (`SitemapEntry` in the source). -/
structure SitemapEntry where
  url : String
  slug : String
  lastmod : Option String
  deriving DecidableEq, Repr

/-- One output dataset row.  The engine reads only `id` (`item.get("id")`) and
the `name`/`id` sort key; everything else is the opaque `payload`. -/
structure Row where
  id : String
  name : String := ""
  payload : Nat := 0
  deriving DecidableEq, Repr, Inhabited

/-- One per-entity state record from `medicament_ma_state.json["records"]`.
`none` in an `Option` field models an absent dict key. -/
structure EntityState where
  url : Option String := none
  lastmod : Option String := none
  status : Option String := none
  missingStreak : Nat := 0
  absentStreak : Nat := 0
  lastSeenAt : Option String := none
  lastFetchedAt : Option String := none
  lastMessage : Option String := none
  deriving DecidableEq, Repr

/-- Source constant `MISSING_GRACE_RUNS = 3`. -/
def MISSING_GRACE_RUNS : Nat := 3

/-- Source constant `ABSENT_GRACE_RUNS = 7`. -/
def ABSENT_GRACE_RUNS : Nat := 7

/-- The classified outcome of `fetch_and_parse_medicament` for one entry:
`(slug, status, record, message)` with the slug always the entry's own slug. -/
structure FetchOutcome where
  status : String
  record : Option Row
  message : String
  deriving DecidableEq, Repr

/-- Result of the discovery phase I/O: either the sitemap index itself failed
(`parse_sitemap_index` raised), or it returned a list of sub-sitemaps, each of
which independently either parsed to entries or raised. -/
inductive DiscoveryInput where
  | indexFail
  | indexOk (subs : List (Except String (List SitemapEntry)))
  deriving Repr

/-- Recognized command-line arguments (defaults as in `build_arg_parser`).
Delays are modelled as integers; only their sign is ever tested. -/
structure Args where
  fullRefresh : Bool := false
  forceAcceptDrop : Bool := false
  limit : Int := 0
  dryRun : Bool := false
  requestDelay : Int := 0
  requestJitter : Int := 0
  concurrency : Int := 1
  deriving DecidableEq, Repr

/-- Everything `main` reads from the outside world. -/
structure RunInput where
  existingRecords : List Row
  stateRecords : Dict EntityState
  discovery : DiscoveryInput
  fetchFn : SitemapEntry → FetchOutcome
  now : String

/-! ## Discovery: collection and dedup -/

/-- The loop `for sitemap_url in sitemap_urls: try ... extend ... except:
warning` — a failed sub-sitemap is skipped, not fatal. -/
def collectEntries (subs : List (Except String (List SitemapEntry))) :
    List SitemapEntry :=
  subs.foldl (fun acc r => match r with
    | .ok es => acc ++ es
    | .error _ => acc) []

/-- `a before b` in the `discovered.sort(key=lambda x: x.slug)` order. -/
def entrySlugLe (a b : SitemapEntry) : Prop := strLe a.slug b.slug = true

instance : DecidableRel entrySlugLe := fun a b =>
  inferInstanceAs (Decidable (strLe a.slug b.slug = true))

/-- The dedup dict: keyed by slug, keeping the entry with the lexicographically
larger `lastmod` (`(entry.lastmod or "") > (prev.lastmod or "")`). -/
def dedupDict (allEntries : List SitemapEntry) : Dict SitemapEntry :=
  allEntries.foldl (fun d entry =>
    match dictGet d entry.slug with
    | none => dictUpdate d entry.slug entry
    | some prev =>
        if strLt (prev.lastmod.getD "") (entry.lastmod.getD "") then
          dictUpdate d entry.slug entry
        else d) []

/-- Dedup by slug, then sort by slug (`discovered.sort(key=lambda x: x.slug)`). -/
def dedupEntries (allEntries : List SitemapEntry) : List SitemapEntry :=
  List.insertionSort entrySlugLe (dictValues (dedupDict allEntries))

/-! ## Existing dataset grouping -/

/-- `existing_rows_by_slug`: group dataset rows by their `id`, skipping rows
with a falsy id, keeping per-slug insertion order. -/
def buildRowsBySlug (records : List Row) : Dict (List Row) :=
  records.foldl (fun d item =>
    if item.id = "" then d
    else match dictGet d item.id with
      | some rows => dictUpdate d item.id (rows ++ [item])
      | none => dictUpdate d item.id [item]) []

/-- `existing_first(slug)`: the first stored row for a slug, if any. -/
def existingFirst (rowsBySlug : Dict (List Row)) (slug : String) : Option Row :=
  (dictGet rowsBySlug slug).bind List.head?

/-! ## FetchScheduler: the fetch-or-reuse decision -/

/-- The fetch-or-reuse priority list of `main` (lines 910–922), evaluated top
to bottom exactly as in the source. -/
def shouldFetch (fullRefresh bootstrap : Bool) (prevState : EntityState)
    (existing : Option Row) (entry : SitemapEntry) : Bool :=
  if fullRefresh then true
  else if bootstrap && existing.isSome then false
  else if existing.isNone then true
  else if prevState.lastmod ≠ entry.lastmod then true
  else if ¬ (prevState.status = none ∨ prevState.status = some "ok") then true
  else false

/-- Accumulator of the scheduling loop over `discovered`. -/
structure SchedAcc where
  nextRecords : Dict Row
  nextStateRecords : Dict EntityState
  toFetch : List SitemapEntry
  reusedCount : Nat
  deriving Repr

/-- The state record written for an entity classified as reuse (the
`merge_state_entry(...)` call at lines 932–940). -/
def reusedState (prevState : EntityState) (entry : SitemapEntry)
    (existingSome : Bool) (now : String) : EntityState :=
  { prevState with
      url := some entry.url
      lastmod := entry.lastmod
      status := if existingSome then some "ok"
                else some (prevState.status.getD "unknown")
      lastSeenAt := some now
      missingStreak := prevState.missingStreak
      absentStreak := 0 }

/-- One iteration of the `for entry in discovered` scheduling loop. -/
def scheduleStep (fullRefresh bootstrap : Bool) (stateRecords : Dict EntityState)
    (rowsBySlug : Dict (List Row)) (now : String)
    (acc : SchedAcc) (entry : SitemapEntry) : SchedAcc :=
  let prevState := (dictGet stateRecords entry.slug).getD {}
  let existing := existingFirst rowsBySlug entry.slug
  if shouldFetch fullRefresh bootstrap prevState existing entry then
    { acc with toFetch := acc.toFetch ++ [entry] }
  else
    let acc :=
      match existing with
      | some r =>
          { acc with nextRecords := dictUpdate acc.nextRecords entry.slug r,
                     reusedCount := acc.reusedCount + 1 }
      | none => acc
    let newState := reusedState prevState entry existing.isSome now
    { acc with nextStateRecords :=
        dictUpdate acc.nextStateRecords entry.slug newState }

/-! ## ReconciliationEngine: folding fetch outcomes -/

/-- Accumulator of the fetch-result fold (`_process_fetch_result`'s ambient
state: the two next-maps and the three counters). -/
structure FetchAcc where
  nextRecords : Dict Row
  nextStateRecords : Dict EntityState
  fetchedOk : Nat
  fetchedMissing : Nat
  fetchedError : Nat
  deriving Repr

/-- `_process_fetch_result` (lines 948–1003), one fetch outcome folded into
the next dataset/state maps. -/
def processFetchResult (stateRecords : Dict EntityState)
    (rowsBySlug : Dict (List Row)) (now : String)
    (acc : FetchAcc) (entry : SitemapEntry) (outcome : FetchOutcome) : FetchAcc :=
  let prevState := (dictGet stateRecords entry.slug).getD {}
  let existing := existingFirst rowsBySlug entry.slug
  match outcome.status, outcome.record with
  | "ok", some record =>
      let newState : EntityState :=
        { prevState with
            url := some entry.url
            lastmod := entry.lastmod
            status := some "ok"
            missingStreak := 0
            absentStreak := 0
            lastSeenAt := some now
            lastFetchedAt := some now
            lastMessage := some "" }
      { acc with
          nextRecords := dictUpdate acc.nextRecords entry.slug record
          fetchedOk := acc.fetchedOk + 1
          nextStateRecords := dictUpdate acc.nextStateRecords entry.slug newState }
  | status, _ =>
      if status = "missing" then
        let missingStreak := prevState.missingStreak + 1
        let acc :=
          match existing with
          | some r =>
              if missingStreak < MISSING_GRACE_RUNS then
                { acc with nextRecords := dictUpdate acc.nextRecords entry.slug r }
              else acc
          | none => acc
        let newState : EntityState :=
          { prevState with
              url := some entry.url
              lastmod := entry.lastmod
              status := some "missing"
              missingStreak := missingStreak
              absentStreak := 0
              lastSeenAt := some now
              lastFetchedAt := some now
              lastMessage := some outcome.message }
        { acc with
            fetchedMissing := acc.fetchedMissing + 1
            nextStateRecords := dictUpdate acc.nextStateRecords entry.slug newState }
      else
        let acc :=
          match existing with
          | some r =>
              { acc with nextRecords := dictUpdate acc.nextRecords entry.slug r }
          | none => acc
        let newState : EntityState :=
          { prevState with
              url := some entry.url
              lastmod := entry.lastmod
              status := some "error"
              absentStreak := 0
              lastSeenAt := some now
              lastFetchedAt := some now
              lastMessage := some outcome.message }
        { acc with
            fetchedError := acc.fetchedError + 1
            nextStateRecords := dictUpdate acc.nextStateRecords entry.slug newState }

/-! ## Absent handling -/

/-- Accumulator of the `for slug, rows in existing_rows_by_slug.items()` loop
(lines 1043–1065). -/
structure AbsentAcc where
  nextStateRecords : Dict EntityState
  preservedRows : List Row
  retainedAbsent : Nat
  retainedDuplicateRows : Nat
  deriving Repr

/-- One iteration of the absent-handling loop: duplicate-row preservation for
still-active slugs, grace-period retention and `absent` state updates for
slugs that vanished from discovery. -/
def absentStep (stateRecords : Dict EntityState) (discoveredSlugs : List String)
    (nextRecords : Dict Row) (acc : AbsentAcc) (g : String × List Row) : AbsentAcc :=
  if (dictGet nextRecords g.1).isSome then
    if g.2.length > 1 then
      { acc with
          preservedRows := acc.preservedRows ++ g.2.tail
          retainedDuplicateRows := acc.retainedDuplicateRows + (g.2.length - 1) }
    else acc
  else if discoveredSlugs.contains g.1 then acc
  else
    let prevState := (dictGet stateRecords g.1).getD {}
    let absentStreak := prevState.absentStreak + 1
    let acc :=
      if absentStreak < ABSENT_GRACE_RUNS then
        { acc with
            preservedRows := acc.preservedRows ++ g.2
            retainedAbsent := acc.retainedAbsent + g.2.length }
      else acc
    let newState : EntityState :=
      { prevState with
          status := some "absent"
          absentStreak := absentStreak
          lastSeenAt := prevState.lastSeenAt
          lastFetchedAt := prevState.lastFetchedAt }
    { acc with nextStateRecords := dictUpdate acc.nextStateRecords g.1 newState }

/-! ## Output assembly and drop guard -/

/-- The sort key `(str(x.get("name","")).lower(), str(x.get("id","")).lower())`. -/
def rowKey (r : Row) : String × String := (lowerStr r.name, lowerStr r.id)

/-- Python tuple `<=` on sort keys. -/
def pairLe (a b : String × String) : Bool :=
  strLt a.1 b.1 || (a.1 == b.1 && strLe a.2 b.2)

/-- `a before b` in the final `output_records.sort(...)` order. -/
def rowOrder (a b : Row) : Prop := pairLe (rowKey a) (rowKey b) = true

instance : DecidableRel rowOrder := fun a b =>
  inferInstanceAs (Decidable (pairLe (rowKey a) (rowKey b) = true))

/-- The drop-guard test (lines 1088–1097): trips when the previous dataset was
non-empty, the drop ratio strictly exceeds `DROP_GUARD_RATIO = 0.30`, and
`--force-accept-drop` is not set.  `30 * prev < 100 * (prev - new)` is the
exact-arithmetic form of `(prev - new) / prev > 0.30`. -/
def dropGuardTrips (prevCount newCount : Nat) (force : Bool) : Bool :=
  if 0 < prevCount then
    (decide ((30 : Int) * prevCount < 100 * ((prevCount : Int) - newCount))) && !force
  else false

/-- Everything `main` computes between discovery and the drop guard. -/
structure RunSummary where
  discovered : List SitemapEntry
  toFetch : List SitemapEntry
  reusedCount : Nat
  fetchedOk : Nat
  fetchedMissing : Nat
  fetchedError : Nat
  retainedAbsent : Nat
  retainedDuplicateRows : Nat
  outputRecords : List Row
  nextStateRecords : Dict EntityState
  prevCount : Nat
  newCount : Nat
  deriving Repr

/-- The result of one invocation of `main`.  Files are written on disk only in
the `written` case; `aborted` is the drop guard's distinguished exit. -/
inductive RunResult where
  | configError
  | discoveryError
  | aborted (s : RunSummary)
  | dryRunStop (s : RunSummary)
  | written (s : RunSummary)

/-- The process exit code of each result (`return 1 / 2 / 0`). -/
def RunResult.exitCode : RunResult → Nat
  | .configError => 1
  | .discoveryError => 1
  | .aborted _ => 2
  | .dryRunStop _ => 0
  | .written _ => 0

/-- Whether this run wrote the dataset and state files. -/
def RunResult.wroteFiles : RunResult → Bool
  | .written _ => true
  | _ => false

/-- The deduped, slug-sorted, `--limit`-truncated discovery list. -/
def discoveredOf (args : Args) (subs : List (Except String (List SitemapEntry))) :
    List SitemapEntry :=
  let discovered0 := dedupEntries (collectEntries subs)
  if args.limit > 0 then discovered0.take args.limit.toNat else discovered0

/-- `bootstrap_mode = (not state_records) and (not args.full_refresh)`. -/
def bootstrapOf (args : Args) (input : RunInput) : Bool :=
  input.stateRecords.isEmpty && !args.fullRefresh

/-- The scheduler loop over `discovered` (lines 906–940). -/
def schedOf (args : Args) (subs : List (Except String (List SitemapEntry)))
    (input : RunInput) : SchedAcc :=
  (discoveredOf args subs).foldl
    (scheduleStep args.fullRefresh (bootstrapOf args input) input.stateRecords
      (buildRowsBySlug input.existingRecords) input.now)
    ⟨[], [], [], 0⟩

/-- The (sequential) fetch phase folding `_process_fetch_result` over
`to_fetch` (lines 1008–1036). -/
def fetchAccOf (args : Args) (subs : List (Except String (List SitemapEntry)))
    (input : RunInput) : FetchAcc :=
  let sched := schedOf args subs input
  sched.toFetch.foldl
    (fun acc e =>
      processFetchResult input.stateRecords (buildRowsBySlug input.existingRecords)
        input.now acc e (input.fetchFn e))
    ⟨sched.nextRecords, sched.nextStateRecords, 0, 0, 0⟩

/-- The absent-handling loop over `existing_rows_by_slug` (lines 1043–1065). -/
def absAccOf (args : Args) (subs : List (Except String (List SitemapEntry)))
    (input : RunInput) : AbsentAcc :=
  (buildRowsBySlug input.existingRecords).foldl
    (absentStep input.stateRecords ((discoveredOf args subs).map (·.slug))
      (fetchAccOf args subs input).nextRecords)
    ⟨(fetchAccOf args subs input).nextStateRecords, [], 0, 0⟩

/-- The sorted output dataset (lines 1067–1068). -/
def outputRecordsOf (args : Args) (subs : List (Except String (List SitemapEntry)))
    (input : RunInput) : List Row :=
  List.insertionSort rowOrder
    (dictValues (fetchAccOf args subs input).nextRecords ++
      (absAccOf args subs input).preservedRows)

/-- Everything `main` computes between a successful sitemap-index read and the
drop guard (lines 867–1085). -/
def computeSummary (args : Args) (subs : List (Except String (List SitemapEntry)))
    (input : RunInput) : RunSummary :=
  { discovered := discoveredOf args subs
    toFetch := (schedOf args subs input).toFetch
    reusedCount := (schedOf args subs input).reusedCount
    fetchedOk := (fetchAccOf args subs input).fetchedOk
    fetchedMissing := (fetchAccOf args subs input).fetchedMissing
    fetchedError := (fetchAccOf args subs input).fetchedError
    retainedAbsent := (absAccOf args subs input).retainedAbsent
    retainedDuplicateRows := (absAccOf args subs input).retainedDuplicateRows
    outputRecords := outputRecordsOf args subs input
    nextStateRecords := (absAccOf args subs input).nextStateRecords
    prevCount := input.existingRecords.length
    newCount := (outputRecordsOf args subs input).length }

/-- `main` (lines 817–1128): argument validation, the `--limit`-forces-dry-run
rule, discovery (index failure fatal, sub-sitemap failures skipped), the
pipeline, the drop guard, and the final write-or-skip decision. -/
def runMain (args : Args) (input : RunInput) : RunResult :=
  if args.requestDelay < 0 ∨ args.requestJitter < 0 then .configError
  else
    let dryRun := if args.limit > 0 && !args.dryRun then true else args.dryRun
    match input.discovery with
    | .indexFail => .discoveryError
    | .indexOk subs =>
        let s := computeSummary args subs input
        if dropGuardTrips s.prevCount s.newCount args.forceAcceptDrop then .aborted s
        else if dryRun then .dryRunStop s
        else .written s

end MedicamentsUpdater

namespace MedicamentsUpdater

/-! ## Basic dictionary lemmas -/

theorem dictGet_update {α : Type} (d : Dict α) (k k' : String) (v : α) :
    dictGet (dictUpdate d k v) k' = if k = k' then some v else dictGet d k' := by
  induction d with
  | nil => simp [dictUpdate, dictGet]
  | cons p rest ih =>
      obtain ⟨k₀, v₀⟩ := p
      by_cases h : k₀ = k
      · subst h
        simp only [dictUpdate, if_pos rfl, dictGet]
        by_cases h' : k₀ = k' <;> simp [h', dictGet]
      · simp only [dictUpdate, if_neg h, dictGet]
        by_cases h' : k₀ = k'
        · subst h'
          have : k ≠ k₀ := fun hc => h hc.symm
          simp [this, dictGet]
        · simp [h', ih]

theorem dictGet_update_self {α : Type} (d : Dict α) (k : String) (v : α) :
    dictGet (dictUpdate d k v) k = some v := by
  simp [dictGet_update]

theorem dictGet_update_ne {α : Type} (d : Dict α) (k k' : String) (v : α)
    (h : k ≠ k') : dictGet (dictUpdate d k v) k' = dictGet d k' := by
  simp [dictGet_update, h]

theorem dictGet_update_isSome {α : Type} (d : Dict α) (k k' : String) (v : α)
    (h : (dictGet d k').isSome) : (dictGet (dictUpdate d k v) k').isSome := by
  rw [dictGet_update]
  by_cases hk : k = k' <;> simp [hk, h]

/-! ## Sample inputs used by witness theorems -/

/-- A sample entry used to instantiate hypotheses in witnesses. -/
def sampleEntry : SitemapEntry := { url := "https://x/medicament/a/", slug := "a", lastmod := some "2024-01-01" }

/-- A fetch function whose every answer is an `ok` record. -/
def okFetchFn : SitemapEntry → FetchOutcome :=
  fun e => { status := "ok", record := some { id := e.slug, name := e.slug, payload := 1 }, message := "" }

/-- An input with nothing on disk and one discovered entry. -/
def freshInput : RunInput :=
  { existingRecords := []
    stateRecords := []
    discovery := .indexOk [.ok [sampleEntry]]
    fetchFn := okFetchFn
    now := "2025-01-01T00:00:00Z" }


/-! ## C10: `--limit` without `--dry-run` forces dry-run, so nothing is written -/

/-- C10: supplying a positive `--limit` forcibly enables dry-run mode, so a run
invoked with `limit > 0` never writes the dataset file or the state file. -/
theorem limit_forces_dry_run (args : Args) (input : RunInput)
    (h : 0 < args.limit) : (runMain args input).wroteFiles = false := by
  have hd : (if args.limit > 0 && !args.dryRun then true else args.dryRun) = true := by
    cases hdr : args.dryRun <;> simp [hdr, h]
  unfold runMain
  split
  · rfl
  · cases hdisc : input.discovery with
    | indexFail => rfl
    | indexOk subs =>
        simp only [hd]
        split
        · rfl
        · simp [RunResult.wroteFiles]

/-- Witness for `limit_forces_dry_run` at a concrete run. -/
theorem limit_forces_dry_run_witness :
    (0 : Int) < 1 ∧ (runMain { limit := 1 } freshInput).wroteFiles = false :=
  ⟨by decide, limit_forces_dry_run { limit := 1 } freshInput (by decide)⟩

/-! ## C7: scheduler minimization -/

/-- C7: outside full-refresh mode the scheduler never classifies as reuse an
entity with no dataset Record (it always fetches it), and never fetches an
entity whose stored status is `ok` and whose `lastModified` equals the stored
one while a Record exists. -/
theorem scheduler_minimization (bootstrap : Bool) (prevState : EntityState)
    (existing : Option Row) (entry : SitemapEntry) :
    (existing = none → shouldFetch false bootstrap prevState existing entry = true) ∧
    (existing.isSome = true → prevState.status = some "ok" →
      prevState.lastmod = entry.lastmod →
      shouldFetch false bootstrap prevState existing entry = false) := by
  constructor
  · intro he; subst he; cases bootstrap <;> simp [shouldFetch]
  · intro hs hst hlm
    cases existing with
    | none => simp at hs
    | some r => cases bootstrap <;> simp [shouldFetch, hst, hlm]

/-- Witness for `scheduler_minimization` at concrete inputs. -/
theorem scheduler_minimization_witness :
    shouldFetch false false {} none sampleEntry = true ∧
    shouldFetch false false
      { status := some "ok", lastmod := some "2024-01-01" }
      (some { id := "a" }) sampleEntry = false :=
  ⟨(scheduler_minimization false {} none sampleEntry).1 rfl,
   (scheduler_minimization false
      { status := some "ok", lastmod := some "2024-01-01" }
      (some { id := "a" }) sampleEntry).2 (by decide) (by decide) (by decide)⟩


/-! ## C4: the drop guard -/

/-- C4: the drop guard trips exactly when the previous count is positive, the
override flag is unset, and the drop ratio strictly exceeds `0.30`; a tripped
guard yields exit code 2 and writes nothing, and an index-ok run aborts if and
only if the guard trips (`previousCount=100, newCount=65` aborts; `newCount=75`
proceeds). -/
theorem drop_guard_contract :
    (∀ (prevCount newCount : Nat) (force : Bool),
      dropGuardTrips prevCount newCount force = true ↔
        0 < prevCount ∧ force = false ∧
          (30 : ℚ)/100 < ((prevCount : ℚ) - (newCount : ℚ)) / (prevCount : ℚ)) ∧
    dropGuardTrips 100 65 false = true ∧
    dropGuardTrips 100 75 false = false ∧
    (∀ s : RunSummary,
      (RunResult.aborted s).exitCode = 2 ∧ (RunResult.aborted s).wroteFiles = false) ∧
    (∀ (args : Args) (input : RunInput) (subs : List (Except String (List SitemapEntry))),
      0 ≤ args.requestDelay → 0 ≤ args.requestJitter →
      input.discovery = .indexOk subs →
      (runMain args input = .aborted (computeSummary args subs input) ↔
        dropGuardTrips (computeSummary args subs input).prevCount
          (computeSummary args subs input).newCount args.forceAcceptDrop = true)) := by
  refine ⟨?_, by decide, by decide, fun s => ⟨rfl, rfl⟩, ?_⟩
  · intro prev new force
    unfold dropGuardTrips
    by_cases hp : 0 < prev
    · rw [if_pos hp]
      simp only [Bool.and_eq_true, decide_eq_true_eq, Bool.not_eq_true']
      have hp' : (0 : ℚ) < (prev : ℚ) := by exact_mod_cast hp
      constructor
      · rintro ⟨hlt, hf⟩
        refine ⟨hp, hf, ?_⟩
        rw [div_lt_div_iff₀ (by norm_num) hp']
        have h2 : (30 : ℚ) * prev < 100 * ((prev : ℚ) - new) := by exact_mod_cast hlt
        linarith
      · rintro ⟨-, hf, hq⟩
        rw [div_lt_div_iff₀ (by norm_num) hp'] at hq
        refine ⟨?_, hf⟩
        have h2 : (30 : ℚ) * prev < 100 * ((prev : ℚ) - new) := by linarith
        exact_mod_cast h2
    · rw [if_neg hp]
      simp [hp]
  · intro args input subs hd hj hdisc
    unfold runMain
    rw [if_neg (by push_neg; constructor <;> omega)]
    simp only [hdisc]
    split
    · rename_i h
      simp [h]
    · rename_i h
      rw [Bool.not_eq_true] at h
      split <;> [simp [h]; skip]
      split <;> simp [h]

/-- Witness for `drop_guard_contract` at a concrete run. -/
theorem drop_guard_contract_witness :
    (runMain {} freshInput =
        .aborted (computeSummary {} [.ok [sampleEntry]] freshInput) ↔
      dropGuardTrips (computeSummary {} [.ok [sampleEntry]] freshInput).prevCount
        (computeSummary {} [.ok [sampleEntry]] freshInput).newCount false) :=
  drop_guard_contract.2.2.2.2 {} freshInput [.ok [sampleEntry]]
    (by decide) (by decide) rfl


/-! ## C5: the missing-entity grace period -/

/-- C5: for an entity with a prior Record whose fetch outcome is `missing`,
the prior Record is kept in the next dataset exactly while the new consecutive
`missingStreak` stays below `MISSING_GRACE_RUNS`; at the threshold the Record
is dropped, and the absent-handling pass never preserves rows for a slug that
is still discovered and has no next Record. -/
theorem missing_grace (stateRecords : Dict EntityState)
    (rowsBySlug : Dict (List Row)) (now : String) (acc : FetchAcc)
    (entry : SitemapEntry) (outcome : FetchOutcome) (r : Row)
    (hst : outcome.status = "missing")
    (hex : existingFirst rowsBySlug entry.slug = some r)
    (hacc : dictGet acc.nextRecords entry.slug = none) :
    (let res := processFetchResult stateRecords rowsBySlug now acc entry outcome
     let streak := ((dictGet stateRecords entry.slug).getD {}).missingStreak + 1
     (streak < MISSING_GRACE_RUNS → dictGet res.nextRecords entry.slug = some r) ∧
     (MISSING_GRACE_RUNS ≤ streak → dictGet res.nextRecords entry.slug = none) ∧
     (dictGet res.nextStateRecords entry.slug).map EntityState.missingStreak =
       some streak) ∧
    (∀ (discoveredSlugs : List String) (nextRecords : Dict Row)
        (acc2 : AbsentAcc) (rows : List Row),
      discoveredSlugs.contains entry.slug = true →
      dictGet nextRecords entry.slug = none →
      (absentStep stateRecords discoveredSlugs nextRecords acc2
        (entry.slug, rows)).preservedRows = acc2.preservedRows) := by
  constructor
  · obtain ⟨st, rec, msg⟩ := outcome
    simp only at hst
    subst hst
    have hgr : MISSING_GRACE_RUNS = 3 := rfl
    refine ⟨?_, ?_, ?_⟩
    · intro hlt
      rw [hgr] at hlt
      cases rec <;>
        simp [processFetchResult, hex, MISSING_GRACE_RUNS, hlt, dictGet_update_self]
    · intro hge
      rw [hgr] at hge
      have hni : ¬ (((dictGet stateRecords entry.slug).getD {}).missingStreak + 1 < 3) := by
        omega
      cases rec <;>
        simp [processFetchResult, hex, MISSING_GRACE_RUNS, hni, hacc]
    · cases rec <;>
        simp [processFetchResult, hex, dictGet_update_self]
  · intro discoveredSlugs nextRecords acc2 rows hdisc hnone
    have hmem : entry.slug ∈ discoveredSlugs := by
      simpa using hdisc
    simp [absentStep, hnone, hmem]

/-- Witness for `missing_grace` at a concrete state. -/
theorem missing_grace_witness :
    (("missing" : String) = "missing") ∧
    (let stateRecords : Dict EntityState := [("a", { missingStreak := 1 })]
     let rowsBySlug : Dict (List Row) := [("a", [{ id := "a", name := "A" }])]
     let res := processFetchResult stateRecords rowsBySlug "T"
       ⟨[], [], 0, 0, 0⟩ sampleEntry ⟨"missing", none, "http 404"⟩
     dictGet res.nextRecords "a" = some { id := "a", name := "A" }) := by
  have h := missing_grace [("a", { missingStreak := 1 })]
    [("a", [{ id := "a", name := "A" }])] "T" ⟨[], [], 0, 0, 0⟩
    sampleEntry ⟨"missing", none, "http 404"⟩ { id := "a", name := "A" }
    rfl (by decide) (by decide)
  exact ⟨rfl, h.1.1 (by decide)⟩


/-! ## C1: discovery failure handling -/

/-- A run in which one sub-sitemap fails and another parses fine. -/
def partialDiscoveryInput : RunInput :=
  { existingRecords := []
    stateRecords := []
    discovery := .indexOk [.error "HTTP failure", .ok [sampleEntry]]
    fetchFn := okFetchFn
    now := "2025-01-01T00:00:00Z" }

/-- C1 counterexample: a failed sub-sitemap does NOT abort the run — with one
sub-sitemap failing and one parsing, the run still dispatches a fetch,
completes with exit code 0 and writes both files, committing the partially
discovered entity set. -/
theorem discovery_not_all_or_nothing :
    runMain {} partialDiscoveryInput =
      .written (computeSummary {} [.error "HTTP failure", .ok [sampleEntry]]
        partialDiscoveryInput) ∧
    (computeSummary {} [.error "HTTP failure", .ok [sampleEntry]]
        partialDiscoveryInput).toFetch = [sampleEntry] ∧
    (runMain {} partialDiscoveryInput).exitCode = 0 :=
  ⟨rfl, by decide, rfl⟩

/-- C1 (amended): only a failure of the sitemap index itself is fatal (the run
aborts before any fetch is dispatched); a failed sub-sitemap is skipped and
the run proceeds — and commits — the entities of the remaining sub-sitemaps. -/
theorem discovery_index_only_fatal (args : Args) (input : RunInput)
    (hd : 0 ≤ args.requestDelay) (hj : 0 ≤ args.requestJitter) :
    (input.discovery = .indexFail → runMain args input = .discoveryError) ∧
    (∀ subs, input.discovery = .indexOk subs →
      runMain args input ≠ .discoveryError) ∧
    (∀ (msg : String) (subs : List (Except String (List SitemapEntry))),
      collectEntries (.error msg :: subs) = collectEntries subs) := by
  have hc : ¬ (args.requestDelay < 0 ∨ args.requestJitter < 0) := by
    push_neg
    constructor <;> omega
  refine ⟨?_, ?_, fun msg subs => rfl⟩
  · intro hdisc
    unfold runMain
    rw [if_neg hc, hdisc]
  · intro subs hdisc
    unfold runMain
    rw [if_neg hc]
    simp only [hdisc]
    split
    · simp
    · split
      · simp
      · split <;> simp

/-- Witness for `discovery_index_only_fatal` at a concrete run. -/
theorem discovery_index_only_fatal_witness :
    runMain {} { freshInput with discovery := .indexFail } =
      RunResult.discoveryError :=
  (discovery_index_only_fatal {} { freshInput with discovery := .indexFail }
      (by decide) (by decide)).1 rfl

/-! ## C3: streak exclusivity -/

/-- A run in which entity `a` had `missingStreak = 2` and then vanishes from
discovery entirely. -/
def vanishInput : RunInput :=
  { existingRecords := [{ id := "a", name := "A" }]
    stateRecords := [("a", { status := some "missing", missingStreak := 2,
                             lastmod := some "2024-01-01" })]
    discovery := .indexOk [.ok []]
    fetchFn := okFetchFn
    now := "2025-01-02T00:00:00Z" }

/-- C3 counterexample: when an entity with a positive `missingStreak` drops out
of discovery, the absent path increments `absentStreak` but does NOT reset
`missingStreak`, producing a state record with both streaks positive. -/
theorem streak_exclusivity_violated :
    (dictGet (computeSummary {} [.ok []] vanishInput).nextStateRecords "a").map
        (fun st => (st.missingStreak, st.absentStreak)) = some (2, 1) ∧
    runMain {} vanishInput =
      .written (computeSummary {} [.ok []] vanishInput) :=
  ⟨by decide, rfl⟩

/-- C3 (amended): per run at most one of the two streaks is incremented for an
entity: a `missing` fetch increments `missingStreak` and resets `absentStreak`
to 0; an `ok` fetch resets both to 0; an `error` fetch resets `absentStreak`
to 0 leaving `missingStreak` unchanged; and the absent path increments
`absentStreak` but leaves `missingStreak` at its prior value (it is not reset),
so a produced record can hold two positive streaks. -/
theorem streak_update_discipline (stateRecords : Dict EntityState)
    (rowsBySlug : Dict (List Row)) (now : String) (acc : FetchAcc)
    (entry : SitemapEntry) (outcome : FetchOutcome) :
    (let prev := (dictGet stateRecords entry.slug).getD {}
     let res := processFetchResult stateRecords rowsBySlug now acc entry outcome
     let st := (dictGet res.nextStateRecords entry.slug).getD {}
     (outcome.status = "missing" →
        st.missingStreak = prev.missingStreak + 1 ∧ st.absentStreak = 0) ∧
     (outcome.status = "ok" → outcome.record.isSome = true →
        st.missingStreak = 0 ∧ st.absentStreak = 0) ∧
     (outcome.status ≠ "ok" → outcome.status ≠ "missing" →
        st.missingStreak = prev.missingStreak ∧ st.absentStreak = 0)) ∧
    (∀ (rows : List Row) (acc2 : AbsentAcc) (discoveredSlugs : List String)
        (nextRecords : Dict Row),
      dictGet nextRecords entry.slug = none →
      discoveredSlugs.contains entry.slug = false →
      (let prev := (dictGet stateRecords entry.slug).getD {}
       let ast := (dictGet (absentStep stateRecords discoveredSlugs nextRecords
            acc2 (entry.slug, rows)).nextStateRecords entry.slug).getD {}
       ast.absentStreak = prev.absentStreak + 1 ∧
       ast.missingStreak = prev.missingStreak)) := by
  constructor
  · obtain ⟨st, rec, msg⟩ := outcome
    refine ⟨?_, ?_, ?_⟩
    · intro hst
      simp only at hst
      subst hst
      cases rec <;>
        cases hex : existingFirst rowsBySlug entry.slug <;>
          simp [processFetchResult, hex, dictGet_update_self]
    · intro hst hrec
      simp only at hst hrec
      subst hst
      cases rec with
      | none => simp at hrec
      | some r => simp [processFetchResult, dictGet_update_self]
    · intro hok hmiss
      simp only at hok hmiss
      cases rec <;>
        cases hex : existingFirst rowsBySlug entry.slug <;>
          simp [processFetchResult, hex, hok, hmiss, dictGet_update_self]
  · intro rows acc2 discoveredSlugs nextRecords hnone hnd
    simp only [absentStep, hnone, Option.isSome_none, Bool.false_eq_true,
      if_false, hnd]
    split <;> simp [dictGet_update_self]


/-! ## Machinery: dictionary membership and key lemmas -/

theorem dictGet_some_mem {α : Type} (d : Dict α) (k : String) (v : α)
    (h : dictGet d k = some v) : (k, v) ∈ d := by
  induction d with
  | nil => simp [dictGet] at h
  | cons p rest ih =>
      obtain ⟨k₀, v₀⟩ := p
      by_cases hk : k₀ = k
      · subst hk
        simp [dictGet] at h
        subst h
        exact List.mem_cons_self _ _
      · simp only [dictGet, if_neg hk] at h
        exact List.mem_cons_of_mem _ (ih h)

theorem dictValues_mem {α : Type} (d : Dict α) (k : String) (v : α)
    (h : dictGet d k = some v) : v ∈ dictValues d :=
  List.mem_map.mpr ⟨(k, v), dictGet_some_mem d k v h, rfl⟩

theorem dictGet_none_iff {α : Type} (d : Dict α) (k : String) :
    dictGet d k = none ↔ k ∉ dictKeys d := by
  induction d with
  | nil => simp [dictGet, dictKeys]
  | cons p rest ih =>
      obtain ⟨k₀, v₀⟩ := p
      by_cases hk : k₀ = k
      · subst hk
        simp [dictGet, dictKeys]
      · have hk' : ¬ k = k₀ := fun hc => hk hc.symm
        simp [dictGet, dictKeys, hk, hk', ih]

theorem dictKeys_update {α : Type} (d : Dict α) (k : String) (v : α) :
    dictKeys (dictUpdate d k v) =
      if (dictGet d k).isSome then dictKeys d else dictKeys d ++ [k] := by
  induction d with
  | nil => simp [dictUpdate, dictGet, dictKeys]
  | cons p rest ih =>
      obtain ⟨k₀, v₀⟩ := p
      by_cases hk : k₀ = k
      · subst hk
        simp [dictUpdate, dictGet, dictKeys]
      · simp only [dictUpdate, if_neg hk, dictGet]
        have hmap : dictKeys ((k₀, v₀) :: dictUpdate rest k v) =
            k₀ :: dictKeys (dictUpdate rest k v) := rfl
        rw [hmap, ih]
        split <;> simp [dictKeys]

theorem dictKeys_update_nodup {α : Type} (d : Dict α) (k : String) (v : α)
    (h : (dictKeys d).Nodup) : (dictKeys (dictUpdate d k v)).Nodup := by
  rw [dictKeys_update]
  split
  · exact h
  · rename_i hnone
    have hk : k ∉ dictKeys d := by
      rw [← dictGet_none_iff]
      cases hg : dictGet d k
      · rfl
      · simp [hg] at hnone
    simp [List.nodup_append, h, hk]

/-! ## Machinery: scheduler fold lemmas -/

/-- The scheduler's fetch-or-reuse decision for one entry, as a function of
the run environment only. -/
def schedDecision (fullRefresh bootstrap : Bool) (stateRecords : Dict EntityState)
    (rowsBySlug : Dict (List Row)) (e : SitemapEntry) : Bool :=
  shouldFetch fullRefresh bootstrap ((dictGet stateRecords e.slug).getD {})
    (existingFirst rowsBySlug e.slug) e

theorem scheduleStep_toFetch (fullRefresh bootstrap : Bool)
    (stateRecords : Dict EntityState) (rowsBySlug : Dict (List Row))
    (now : String) (acc : SchedAcc) (e : SitemapEntry) :
    (scheduleStep fullRefresh bootstrap stateRecords rowsBySlug now acc e).toFetch =
      if schedDecision fullRefresh bootstrap stateRecords rowsBySlug e then
        acc.toFetch ++ [e]
      else acc.toFetch := by
  unfold scheduleStep schedDecision
  split
  · rename_i h
    rw [if_pos h]
  · rename_i h
    rw [if_neg h]
    cases existingFirst rowsBySlug e.slug <;> simp

theorem scheduleStep_recs_frame (fullRefresh bootstrap : Bool)
    (stateRecords : Dict EntityState) (rowsBySlug : Dict (List Row))
    (now : String) (acc : SchedAcc) (e : SitemapEntry) (k : String)
    (h : e.slug ≠ k) :
    dictGet (scheduleStep fullRefresh bootstrap stateRecords rowsBySlug now acc e).nextRecords k =
      dictGet acc.nextRecords k := by
  dsimp only [scheduleStep]
  split
  · rfl
  · cases existingFirst rowsBySlug e.slug <;> simp [dictGet_update_ne _ _ _ _ h]

theorem scheduleStep_state_frame (fullRefresh bootstrap : Bool)
    (stateRecords : Dict EntityState) (rowsBySlug : Dict (List Row))
    (now : String) (acc : SchedAcc) (e : SitemapEntry) (k : String)
    (h : e.slug ≠ k) :
    dictGet (scheduleStep fullRefresh bootstrap stateRecords rowsBySlug now acc e).nextStateRecords k =
      dictGet acc.nextStateRecords k := by
  dsimp only [scheduleStep]
  split
  · rfl
  · cases existingFirst rowsBySlug e.slug <;> simp [dictGet_update_ne _ _ _ _ h]

theorem schedFold_toFetch (fullRefresh bootstrap : Bool)
    (stateRecords : Dict EntityState) (rowsBySlug : Dict (List Row))
    (now : String) (entries : List SitemapEntry) (acc : SchedAcc) :
    (entries.foldl (scheduleStep fullRefresh bootstrap stateRecords rowsBySlug now) acc).toFetch =
      acc.toFetch ++
        entries.filter (schedDecision fullRefresh bootstrap stateRecords rowsBySlug) := by
  induction entries generalizing acc with
  | nil => simp
  | cons e rest ih =>
      rw [List.foldl_cons, ih, List.filter_cons]
      rw [scheduleStep_toFetch]
      split <;> simp

theorem schedFold_recs_frame (fullRefresh bootstrap : Bool)
    (stateRecords : Dict EntityState) (rowsBySlug : Dict (List Row))
    (now : String) (entries : List SitemapEntry) (acc : SchedAcc) (k : String)
    (h : ∀ e ∈ entries, e.slug ≠ k) :
    dictGet (entries.foldl (scheduleStep fullRefresh bootstrap stateRecords rowsBySlug now) acc).nextRecords k =
      dictGet acc.nextRecords k := by
  induction entries generalizing acc with
  | nil => rfl
  | cons e rest ih =>
      rw [List.foldl_cons, ih _ (fun x hx => h x (List.mem_cons_of_mem _ hx)),
        scheduleStep_recs_frame _ _ _ _ _ _ _ _ (h e (List.mem_cons_self _ _))]

theorem schedFold_state_frame (fullRefresh bootstrap : Bool)
    (stateRecords : Dict EntityState) (rowsBySlug : Dict (List Row))
    (now : String) (entries : List SitemapEntry) (acc : SchedAcc) (k : String)
    (h : ∀ e ∈ entries, e.slug ≠ k) :
    dictGet (entries.foldl (scheduleStep fullRefresh bootstrap stateRecords rowsBySlug now) acc).nextStateRecords k =
      dictGet acc.nextStateRecords k := by
  induction entries generalizing acc with
  | nil => rfl
  | cons e rest ih =>
      rw [List.foldl_cons, ih _ (fun x hx => h x (List.mem_cons_of_mem _ hx)),
        scheduleStep_state_frame _ _ _ _ _ _ _ _ (h e (List.mem_cons_self _ _))]

theorem scheduleStep_reuse_lookup (fullRefresh bootstrap : Bool)
    (stateRecords : Dict EntityState) (rowsBySlug : Dict (List Row))
    (now : String) (acc : SchedAcc) (e : SitemapEntry)
    (hdec : schedDecision fullRefresh bootstrap stateRecords rowsBySlug e = false)
    (hacc : dictGet acc.nextRecords e.slug = none) :
    dictGet (scheduleStep fullRefresh bootstrap stateRecords rowsBySlug now acc e).nextRecords e.slug =
      existingFirst rowsBySlug e.slug ∧
    dictGet (scheduleStep fullRefresh bootstrap stateRecords rowsBySlug now acc e).nextStateRecords e.slug =
      some (reusedState ((dictGet stateRecords e.slug).getD {}) e
        (existingFirst rowsBySlug e.slug).isSome now) := by
  unfold scheduleStep
  unfold schedDecision at hdec
  rw [if_neg (by simp [hdec])]
  cases hex : existingFirst rowsBySlug e.slug <;>
    simp [hex, hacc, dictGet_update_self]

theorem schedFold_reuse_lookup (fullRefresh bootstrap : Bool)
    (stateRecords : Dict EntityState) (rowsBySlug : Dict (List Row))
    (now : String) (entries : List SitemapEntry) (acc : SchedAcc) (e : SitemapEntry)
    (hnd : (entries.map (·.slug)).Nodup) (he : e ∈ entries)
    (hdec : schedDecision fullRefresh bootstrap stateRecords rowsBySlug e = false)
    (hacc : dictGet acc.nextRecords e.slug = none) :
    dictGet (entries.foldl (scheduleStep fullRefresh bootstrap stateRecords rowsBySlug now) acc).nextRecords e.slug =
      existingFirst rowsBySlug e.slug ∧
    dictGet (entries.foldl (scheduleStep fullRefresh bootstrap stateRecords rowsBySlug now) acc).nextStateRecords e.slug =
      some (reusedState ((dictGet stateRecords e.slug).getD {}) e
        (existingFirst rowsBySlug e.slug).isSome now) := by
  induction entries generalizing acc with
  | nil => cases he
  | cons a rest ih =>
      rw [List.map_cons, List.nodup_cons] at hnd
      rcases List.mem_cons.mp he with rfl | hmem
      · have hframe : ∀ x ∈ rest, x.slug ≠ e.slug := by
          intro x hx hcontra
          exact hnd.1 (hcontra ▸ List.mem_map_of_mem (·.slug) hx)
        rw [List.foldl_cons,
          schedFold_recs_frame _ _ _ _ _ _ _ _ hframe,
          schedFold_state_frame _ _ _ _ _ _ _ _ hframe]
        exact scheduleStep_reuse_lookup _ _ _ _ _ _ _ hdec hacc
      · have hne : a.slug ≠ e.slug := by
          intro hcontra
          exact hnd.1 (hcontra ▸ List.mem_map_of_mem (·.slug) hmem)
        rw [List.foldl_cons]
        exact ih _ hnd.2 hmem
          (by rw [scheduleStep_recs_frame _ _ _ _ _ _ _ _ hne]; exact hacc)


/-! ## Machinery: fetch-result fold lemmas -/

/-- The dataset entry `_process_fetch_result` writes for `(entry, outcome)`
(`none` when it leaves the next dataset untouched at `entry.slug`); this is a
function of the run environment and the outcome only, never of the fold
accumulator. -/
def recWrite (stateRecords : Dict EntityState) (rowsBySlug : Dict (List Row))
    (e : SitemapEntry) (o : FetchOutcome) : Option Row :=
  match o.status, o.record with
  | "ok", some record => some record
  | status, _ =>
      if status = "missing" then
        match existingFirst rowsBySlug e.slug with
        | some r =>
            if ((dictGet stateRecords e.slug).getD {}).missingStreak + 1 <
                MISSING_GRACE_RUNS then some r
            else none
        | none => none
      else existingFirst rowsBySlug e.slug

/-- The state record `_process_fetch_result` writes for `(entry, outcome)`;
again a function of the environment and the outcome only. -/
def stateWrite (stateRecords : Dict EntityState) (now : String)
    (e : SitemapEntry) (o : FetchOutcome) : EntityState :=
  let prevState := (dictGet stateRecords e.slug).getD {}
  match o.status, o.record with
  | "ok", some _ =>
      { prevState with
          url := some e.url, lastmod := e.lastmod, status := some "ok",
          missingStreak := 0, absentStreak := 0, lastSeenAt := some now,
          lastFetchedAt := some now, lastMessage := some "" }
  | status, _ =>
      if status = "missing" then
        { prevState with
            url := some e.url, lastmod := e.lastmod, status := some "missing",
            missingStreak := prevState.missingStreak + 1, absentStreak := 0,
            lastSeenAt := some now, lastFetchedAt := some now,
            lastMessage := some o.message }
      else
        { prevState with
            url := some e.url, lastmod := e.lastmod, status := some "error",
            absentStreak := 0, lastSeenAt := some now, lastFetchedAt := some now,
            lastMessage := some o.message }

theorem processFetchResult_recs_self (stateRecords : Dict EntityState)
    (rowsBySlug : Dict (List Row)) (now : String) (acc : FetchAcc)
    (e : SitemapEntry) (o : FetchOutcome) :
    dictGet (processFetchResult stateRecords rowsBySlug now acc e o).nextRecords e.slug =
      match recWrite stateRecords rowsBySlug e o with
      | some r => some r
      | none => dictGet acc.nextRecords e.slug := by
  obtain ⟨st, rec, msg⟩ := o
  by_cases hok : st = "ok"
  · subst hok
    cases rec with
    | some r => simp [processFetchResult, recWrite, dictGet_update_self]
    | none =>
        cases hex : existingFirst rowsBySlug e.slug <;>
          simp [processFetchResult, recWrite, hex, dictGet_update_self]
  · by_cases hmiss : st = "missing"
    · subst hmiss
      cases rec <;>
        cases hex : existingFirst rowsBySlug e.slug <;>
          by_cases hc : ((dictGet stateRecords e.slug).getD {}).missingStreak + 1 <
              MISSING_GRACE_RUNS <;>
            simp [processFetchResult, recWrite, hex, hc, dictGet_update_self]
    · cases rec <;>
        cases hex : existingFirst rowsBySlug e.slug <;>
          simp [processFetchResult, recWrite, hex, hok, hmiss, dictGet_update_self]

theorem processFetchResult_state_self (stateRecords : Dict EntityState)
    (rowsBySlug : Dict (List Row)) (now : String) (acc : FetchAcc)
    (e : SitemapEntry) (o : FetchOutcome) :
    dictGet (processFetchResult stateRecords rowsBySlug now acc e o).nextStateRecords e.slug =
      some (stateWrite stateRecords now e o) := by
  obtain ⟨st, rec, msg⟩ := o
  by_cases hok : st = "ok"
  · subst hok
    cases rec with
    | some r => simp [processFetchResult, stateWrite, dictGet_update_self]
    | none =>
        cases hex : existingFirst rowsBySlug e.slug <;>
          simp [processFetchResult, stateWrite, hex, dictGet_update_self]
  · by_cases hmiss : st = "missing"
    · subst hmiss
      cases rec <;>
        cases hex : existingFirst rowsBySlug e.slug <;>
          by_cases hc : ((dictGet stateRecords e.slug).getD {}).missingStreak + 1 <
              MISSING_GRACE_RUNS <;>
            simp [processFetchResult, stateWrite, hex, hc, dictGet_update_self]
    · cases rec <;>
        cases hex : existingFirst rowsBySlug e.slug <;>
          simp [processFetchResult, stateWrite, hex, hok, hmiss, dictGet_update_self]

theorem processFetchResult_recs_frame (stateRecords : Dict EntityState)
    (rowsBySlug : Dict (List Row)) (now : String) (acc : FetchAcc)
    (e : SitemapEntry) (o : FetchOutcome) (k : String) (h : e.slug ≠ k) :
    dictGet (processFetchResult stateRecords rowsBySlug now acc e o).nextRecords k =
      dictGet acc.nextRecords k := by
  obtain ⟨st, rec, msg⟩ := o
  by_cases hok : st = "ok"
  · subst hok
    cases rec with
    | some r => simp [processFetchResult, dictGet_update_ne _ _ _ _ h]
    | none =>
        cases hex : existingFirst rowsBySlug e.slug <;>
          simp [processFetchResult, hex, dictGet_update_ne _ _ _ _ h]
  · by_cases hmiss : st = "missing"
    · subst hmiss
      cases rec <;>
        cases hex : existingFirst rowsBySlug e.slug <;>
          by_cases hc : ((dictGet stateRecords e.slug).getD {}).missingStreak + 1 <
              MISSING_GRACE_RUNS <;>
            simp [processFetchResult, hex, hc, dictGet_update_ne _ _ _ _ h]
    · cases rec <;>
        cases hex : existingFirst rowsBySlug e.slug <;>
          simp [processFetchResult, hex, hok, hmiss, dictGet_update_ne _ _ _ _ h]

theorem processFetchResult_state_frame (stateRecords : Dict EntityState)
    (rowsBySlug : Dict (List Row)) (now : String) (acc : FetchAcc)
    (e : SitemapEntry) (o : FetchOutcome) (k : String) (h : e.slug ≠ k) :
    dictGet (processFetchResult stateRecords rowsBySlug now acc e o).nextStateRecords k =
      dictGet acc.nextStateRecords k := by
  obtain ⟨st, rec, msg⟩ := o
  by_cases hok : st = "ok"
  · subst hok
    cases rec with
    | some r => simp [processFetchResult, dictGet_update_ne _ _ _ _ h]
    | none =>
        cases hex : existingFirst rowsBySlug e.slug <;>
          simp [processFetchResult, hex, dictGet_update_ne _ _ _ _ h]
  · by_cases hmiss : st = "missing"
    · subst hmiss
      cases rec <;>
        cases hex : existingFirst rowsBySlug e.slug <;>
          by_cases hc : ((dictGet stateRecords e.slug).getD {}).missingStreak + 1 <
              MISSING_GRACE_RUNS <;>
            simp [processFetchResult, hex, hc, dictGet_update_ne _ _ _ _ h]
    · cases rec <;>
        cases hex : existingFirst rowsBySlug e.slug <;>
          simp [processFetchResult, hex, hok, hmiss, dictGet_update_ne _ _ _ _ h]

theorem processFetchResult_counters (stateRecords : Dict EntityState)
    (rowsBySlug : Dict (List Row)) (now : String) (acc : FetchAcc)
    (e : SitemapEntry) (o : FetchOutcome) :
    (processFetchResult stateRecords rowsBySlug now acc e o).fetchedOk =
      acc.fetchedOk + (if o.status = "ok" ∧ o.record.isSome then 1 else 0) ∧
    (processFetchResult stateRecords rowsBySlug now acc e o).fetchedMissing =
      acc.fetchedMissing +
        (if ¬ (o.status = "ok" ∧ o.record.isSome) ∧ o.status = "missing" then 1 else 0) ∧
    (processFetchResult stateRecords rowsBySlug now acc e o).fetchedError =
      acc.fetchedError +
        (if ¬ (o.status = "ok" ∧ o.record.isSome) ∧ o.status ≠ "missing" then 1 else 0) := by
  obtain ⟨st, rec, msg⟩ := o
  by_cases hok : st = "ok"
  · subst hok
    cases rec with
    | some r => simp [processFetchResult]
    | none =>
        cases hex : existingFirst rowsBySlug e.slug <;>
          simp [processFetchResult, hex]
  · by_cases hmiss : st = "missing"
    · subst hmiss
      cases rec <;>
        cases hex : existingFirst rowsBySlug e.slug <;>
          by_cases hc : ((dictGet stateRecords e.slug).getD {}).missingStreak + 1 <
              MISSING_GRACE_RUNS <;>
            simp [processFetchResult, hex, hc, hok]
    · cases rec <;>
        cases hex : existingFirst rowsBySlug e.slug <;>
          simp [processFetchResult, hex, hok, hmiss]


/-! ## Machinery: order-independence of the fetch-result fold -/

/-- Two fold accumulators that agree as key-value mappings (dict insertion
order aside) and on all counters. -/
def FetchAccEquiv (a b : FetchAcc) : Prop :=
  (∀ k, dictGet a.nextRecords k = dictGet b.nextRecords k) ∧
  (∀ k, dictGet a.nextStateRecords k = dictGet b.nextStateRecords k) ∧
  a.fetchedOk = b.fetchedOk ∧ a.fetchedMissing = b.fetchedMissing ∧
  a.fetchedError = b.fetchedError

theorem fetchAccEquiv_refl (a : FetchAcc) : FetchAccEquiv a a :=
  ⟨fun _ => rfl, fun _ => rfl, rfl, rfl, rfl⟩

theorem fetchAccEquiv_trans {a b c : FetchAcc}
    (h₁ : FetchAccEquiv a b) (h₂ : FetchAccEquiv b c) : FetchAccEquiv a c :=
  ⟨fun k => (h₁.1 k).trans (h₂.1 k),
   fun k => (h₁.2.1 k).trans (h₂.2.1 k),
   h₁.2.2.1.trans h₂.2.2.1,
   h₁.2.2.2.1.trans h₂.2.2.2.1,
   h₁.2.2.2.2.trans h₂.2.2.2.2⟩

theorem processFetchResult_congr (stateRecords : Dict EntityState)
    (rowsBySlug : Dict (List Row)) (now : String) {a b : FetchAcc}
    (h : FetchAccEquiv a b) (e : SitemapEntry) (o : FetchOutcome) :
    FetchAccEquiv (processFetchResult stateRecords rowsBySlug now a e o)
      (processFetchResult stateRecords rowsBySlug now b e o) := by
  obtain ⟨hr, hs, ho, hm, he'⟩ := h
  refine ⟨fun k => ?_, fun k => ?_, ?_, ?_, ?_⟩
  · by_cases hk : e.slug = k
    · subst hk
      rw [processFetchResult_recs_self, processFetchResult_recs_self]
      cases recWrite stateRecords rowsBySlug e o <;> simp [hr]
    · rw [processFetchResult_recs_frame _ _ _ _ _ _ _ hk,
        processFetchResult_recs_frame _ _ _ _ _ _ _ hk, hr]
  · by_cases hk : e.slug = k
    · subst hk
      rw [processFetchResult_state_self, processFetchResult_state_self]
    · rw [processFetchResult_state_frame _ _ _ _ _ _ _ hk,
        processFetchResult_state_frame _ _ _ _ _ _ _ hk, hs]
  · rw [(processFetchResult_counters _ _ _ a e o).1,
      (processFetchResult_counters _ _ _ b e o).1, ho]
  · rw [(processFetchResult_counters _ _ _ a e o).2.1,
      (processFetchResult_counters _ _ _ b e o).2.1, hm]
  · rw [(processFetchResult_counters _ _ _ a e o).2.2,
      (processFetchResult_counters _ _ _ b e o).2.2, he']

theorem processFetchResult_comm (stateRecords : Dict EntityState)
    (rowsBySlug : Dict (List Row)) (now : String) (acc : FetchAcc)
    (e₁ e₂ : SitemapEntry) (o₁ o₂ : FetchOutcome) (hne : e₁.slug ≠ e₂.slug) :
    FetchAccEquiv
      (processFetchResult stateRecords rowsBySlug now
        (processFetchResult stateRecords rowsBySlug now acc e₁ o₁) e₂ o₂)
      (processFetchResult stateRecords rowsBySlug now
        (processFetchResult stateRecords rowsBySlug now acc e₂ o₂) e₁ o₁) := by
  have hne' : e₂.slug ≠ e₁.slug := fun hc => hne hc.symm
  refine ⟨fun k => ?_, fun k => ?_, ?_, ?_, ?_⟩
  · by_cases hk₂ : e₂.slug = k
    · subst hk₂
      have hL : dictGet (processFetchResult stateRecords rowsBySlug now
          (processFetchResult stateRecords rowsBySlug now acc e₁ o₁) e₂ o₂).nextRecords e₂.slug =
          match recWrite stateRecords rowsBySlug e₂ o₂ with
          | some r => some r
          | none => dictGet acc.nextRecords e₂.slug := by
        rw [processFetchResult_recs_self]
        cases recWrite stateRecords rowsBySlug e₂ o₂ <;>
          simp [processFetchResult_recs_frame _ _ _ _ _ _ _ hne]
      have hR : dictGet (processFetchResult stateRecords rowsBySlug now
          (processFetchResult stateRecords rowsBySlug now acc e₂ o₂) e₁ o₁).nextRecords e₂.slug =
          match recWrite stateRecords rowsBySlug e₂ o₂ with
          | some r => some r
          | none => dictGet acc.nextRecords e₂.slug := by
        rw [processFetchResult_recs_frame _ _ _ _ _ _ _ hne,
          processFetchResult_recs_self]
      rw [hL, hR]
    · by_cases hk₁ : e₁.slug = k
      · subst hk₁
        have hL : dictGet (processFetchResult stateRecords rowsBySlug now
            (processFetchResult stateRecords rowsBySlug now acc e₁ o₁) e₂ o₂).nextRecords e₁.slug =
            match recWrite stateRecords rowsBySlug e₁ o₁ with
            | some r => some r
            | none => dictGet acc.nextRecords e₁.slug := by
          rw [processFetchResult_recs_frame _ _ _ _ _ _ _ hne',
            processFetchResult_recs_self]
        have hR : dictGet (processFetchResult stateRecords rowsBySlug now
            (processFetchResult stateRecords rowsBySlug now acc e₂ o₂) e₁ o₁).nextRecords e₁.slug =
            match recWrite stateRecords rowsBySlug e₁ o₁ with
            | some r => some r
            | none => dictGet acc.nextRecords e₁.slug := by
          rw [processFetchResult_recs_self]
          cases recWrite stateRecords rowsBySlug e₁ o₁ <;>
            simp [processFetchResult_recs_frame _ _ _ _ _ _ _ hne']
        rw [hL, hR]
      · have h1 := processFetchResult_recs_frame stateRecords rowsBySlug now
          (processFetchResult stateRecords rowsBySlug now acc e₁ o₁) e₂ o₂ k hk₂
        have h2 := processFetchResult_recs_frame stateRecords rowsBySlug now acc e₁ o₁ k hk₁
        have h3 := processFetchResult_recs_frame stateRecords rowsBySlug now
          (processFetchResult stateRecords rowsBySlug now acc e₂ o₂) e₁ o₁ k hk₁
        have h4 := processFetchResult_recs_frame stateRecords rowsBySlug now acc e₂ o₂ k hk₂
        rw [h1, h2, h3, h4]
  · by_cases hk₂ : e₂.slug = k
    · subst hk₂
      have hL : dictGet (processFetchResult stateRecords rowsBySlug now
          (processFetchResult stateRecords rowsBySlug now acc e₁ o₁) e₂ o₂).nextStateRecords e₂.slug =
          some (stateWrite stateRecords now e₂ o₂) := processFetchResult_state_self _ _ _ _ _ _
      have hR : dictGet (processFetchResult stateRecords rowsBySlug now
          (processFetchResult stateRecords rowsBySlug now acc e₂ o₂) e₁ o₁).nextStateRecords e₂.slug =
          some (stateWrite stateRecords now e₂ o₂) := by
        rw [processFetchResult_state_frame _ _ _ _ _ _ _ hne,
          processFetchResult_state_self]
      rw [hL, hR]
    · by_cases hk₁ : e₁.slug = k
      · subst hk₁
        have hL : dictGet (processFetchResult stateRecords rowsBySlug now
            (processFetchResult stateRecords rowsBySlug now acc e₁ o₁) e₂ o₂).nextStateRecords e₁.slug =
            some (stateWrite stateRecords now e₁ o₁) := by
          rw [processFetchResult_state_frame _ _ _ _ _ _ _ hne',
            processFetchResult_state_self]
        have hR : dictGet (processFetchResult stateRecords rowsBySlug now
            (processFetchResult stateRecords rowsBySlug now acc e₂ o₂) e₁ o₁).nextStateRecords e₁.slug =
            some (stateWrite stateRecords now e₁ o₁) := processFetchResult_state_self _ _ _ _ _ _
        rw [hL, hR]
      · have h1 := processFetchResult_state_frame stateRecords rowsBySlug now
          (processFetchResult stateRecords rowsBySlug now acc e₁ o₁) e₂ o₂ k hk₂
        have h2 := processFetchResult_state_frame stateRecords rowsBySlug now acc e₁ o₁ k hk₁
        have h3 := processFetchResult_state_frame stateRecords rowsBySlug now
          (processFetchResult stateRecords rowsBySlug now acc e₂ o₂) e₁ o₁ k hk₁
        have h4 := processFetchResult_state_frame stateRecords rowsBySlug now acc e₂ o₂ k hk₂
        rw [h1, h2, h3, h4]
  · have c1 := (processFetchResult_counters stateRecords rowsBySlug now
      (processFetchResult stateRecords rowsBySlug now acc e₁ o₁) e₂ o₂).1
    have c2 := (processFetchResult_counters stateRecords rowsBySlug now acc e₁ o₁).1
    have c3 := (processFetchResult_counters stateRecords rowsBySlug now
      (processFetchResult stateRecords rowsBySlug now acc e₂ o₂) e₁ o₁).1
    have c4 := (processFetchResult_counters stateRecords rowsBySlug now acc e₂ o₂).1
    rw [c1, c2, c3, c4, Nat.add_right_comm]
  · have c1 := (processFetchResult_counters stateRecords rowsBySlug now
      (processFetchResult stateRecords rowsBySlug now acc e₁ o₁) e₂ o₂).2.1
    have c2 := (processFetchResult_counters stateRecords rowsBySlug now acc e₁ o₁).2.1
    have c3 := (processFetchResult_counters stateRecords rowsBySlug now
      (processFetchResult stateRecords rowsBySlug now acc e₂ o₂) e₁ o₁).2.1
    have c4 := (processFetchResult_counters stateRecords rowsBySlug now acc e₂ o₂).2.1
    rw [c1, c2, c3, c4, Nat.add_right_comm]
  · have c1 := (processFetchResult_counters stateRecords rowsBySlug now
      (processFetchResult stateRecords rowsBySlug now acc e₁ o₁) e₂ o₂).2.2
    have c2 := (processFetchResult_counters stateRecords rowsBySlug now acc e₁ o₁).2.2
    have c3 := (processFetchResult_counters stateRecords rowsBySlug now
      (processFetchResult stateRecords rowsBySlug now acc e₂ o₂) e₁ o₁).2.2
    have c4 := (processFetchResult_counters stateRecords rowsBySlug now acc e₂ o₂).2.2
    rw [c1, c2, c3, c4, Nat.add_right_comm]

theorem fetchFold_congr (stateRecords : Dict EntityState)
    (rowsBySlug : Dict (List Row)) (now : String)
    (outs : List (SitemapEntry × FetchOutcome)) {a b : FetchAcc}
    (h : FetchAccEquiv a b) :
    FetchAccEquiv
      (outs.foldl (fun acc p =>
        processFetchResult stateRecords rowsBySlug now acc p.1 p.2) a)
      (outs.foldl (fun acc p =>
        processFetchResult stateRecords rowsBySlug now acc p.1 p.2) b) := by
  induction outs generalizing a b with
  | nil => exact h
  | cons p rest ih =>
      exact ih (processFetchResult_congr _ _ _ h p.1 p.2)

theorem fetchFold_perm (stateRecords : Dict EntityState)
    (rowsBySlug : Dict (List Row)) (now : String)
    {outs₁ outs₂ : List (SitemapEntry × FetchOutcome)}
    (hperm : outs₁.Perm outs₂) :
    ∀ acc : FetchAcc, (outs₁.map (fun p => p.1.slug)).Nodup →
      FetchAccEquiv
        (outs₁.foldl (fun acc p =>
          processFetchResult stateRecords rowsBySlug now acc p.1 p.2) acc)
        (outs₂.foldl (fun acc p =>
          processFetchResult stateRecords rowsBySlug now acc p.1 p.2) acc) := by
  induction hperm with
  | nil => exact fun acc _ => fetchAccEquiv_refl _
  | cons x h ih =>
      intro acc hnd
      rw [List.map_cons, List.nodup_cons] at hnd
      exact ih _ hnd.2
  | swap x y l =>
      intro acc hnd
      rw [List.map_cons, List.map_cons, List.nodup_cons, List.mem_cons] at hnd
      have hne : y.1.slug ≠ x.1.slug := fun hc => hnd.1 (Or.inl hc)
      rw [List.foldl_cons, List.foldl_cons, List.foldl_cons, List.foldl_cons]
      exact fetchFold_congr _ _ _ l
        (processFetchResult_comm _ _ _ acc y.1 x.1 y.2 x.2 hne)
  | trans h₁₂ h₂₃ ih₁ ih₂ =>
      intro acc hnd
      refine fetchAccEquiv_trans (ih₁ acc hnd) (ih₂ acc ?_)
      exact (h₁₂.map (fun p => p.1.slug)).nodup hnd


/-! ## Machinery: the discovery list has pairwise-distinct slugs -/

theorem mem_dictUpdate {α : Type} {d : Dict α} {k : String} {v : α}
    {p : String × α} : p ∈ dictUpdate d k v → p ∈ d ∨ p = (k, v) := by
  induction d with
  | nil =>
      intro h
      simp [dictUpdate] at h
      exact Or.inr h
  | cons q rest ih =>
      intro h
      obtain ⟨k₀, v₀⟩ := q
      by_cases hk : k₀ = k
      · subst hk
        simp only [dictUpdate, if_pos rfl] at h
        cases h with
        | head => exact Or.inr rfl
        | tail _ hmem => exact Or.inl (List.mem_cons_of_mem _ hmem)
      · simp only [dictUpdate, if_neg hk] at h
        cases h with
        | head => exact Or.inl (List.mem_cons_self _ _)
        | tail _ hmem =>
            cases ih hmem with
            | inl hmem' => exact Or.inl (List.mem_cons_of_mem _ hmem')
            | inr heq' => exact Or.inr heq'

theorem dedupDict_fold_invariant (allEntries : List SitemapEntry) :
    ∀ d : Dict SitemapEntry, (dictKeys d).Nodup → (∀ p ∈ d, p.2.slug = p.1) →
      (dictKeys (allEntries.foldl (fun d entry =>
        match dictGet d entry.slug with
        | none => dictUpdate d entry.slug entry
        | some prev =>
            if strLt (prev.lastmod.getD "") (entry.lastmod.getD "") then
              dictUpdate d entry.slug entry
            else d) d)).Nodup ∧
      ∀ p ∈ allEntries.foldl (fun d entry =>
        match dictGet d entry.slug with
        | none => dictUpdate d entry.slug entry
        | some prev =>
            if strLt (prev.lastmod.getD "") (entry.lastmod.getD "") then
              dictUpdate d entry.slug entry
            else d) d, p.2.slug = p.1 := by
  induction allEntries with
  | nil => exact fun d h₁ h₂ => ⟨h₁, h₂⟩
  | cons e rest ih =>
      intro d h₁ h₂
      rw [List.foldl_cons]
      have hupd : (dictKeys (dictUpdate d e.slug e)).Nodup ∧
          ∀ p ∈ dictUpdate d e.slug e, p.2.slug = p.1 := by
        refine ⟨dictKeys_update_nodup _ _ _ h₁, ?_⟩
        intro p hp
        rcases mem_dictUpdate hp with hp' | hp'
        · exact h₂ p hp'
        · subst hp'
          rfl
      cases hget : dictGet d e.slug with
      | none =>
          simp only [hget]
          exact ih _ hupd.1 hupd.2
      | some prev =>
          by_cases hlt : strLt (prev.lastmod.getD "") (e.lastmod.getD "") = true
          · simp only [hget, hlt, if_true]
            exact ih _ hupd.1 hupd.2
          · simp only [Bool.not_eq_true] at hlt
            simp only [hget, hlt, Bool.false_eq_true, if_false]
            exact ih _ h₁ h₂

theorem dedupDict_invariant (allEntries : List SitemapEntry) :
    (dictKeys (dedupDict allEntries)).Nodup ∧
    ∀ p ∈ dedupDict allEntries, p.2.slug = p.1 :=
  dedupDict_fold_invariant allEntries [] (by simp [dictKeys]) (by simp)

theorem dedupEntries_slug_nodup (allEntries : List SitemapEntry) :
    ((dedupEntries allEntries).map (·.slug)).Nodup := by
  obtain ⟨hkeys, hslug⟩ := dedupDict_invariant allEntries
  have hvals : (dictValues (dedupDict allEntries)).map (·.slug) =
      dictKeys (dedupDict allEntries) := by
    unfold dictValues dictKeys
    rw [List.map_map]
    exact List.map_congr_left (fun p hp => hslug p hp)
  have hperm : ((dedupEntries allEntries).map (·.slug)).Perm
      (dictKeys (dedupDict allEntries)) := by
    rw [← hvals]
    exact (List.perm_insertionSort entrySlugLe _).map _
  exact hperm.symm.nodup hkeys

theorem discoveredOf_slug_nodup (args : Args)
    (subs : List (Except String (List SitemapEntry))) :
    ((discoveredOf args subs).map (·.slug)).Nodup := by
  dsimp only [discoveredOf]
  split
  · exact (List.Sublist.map (fun e : SitemapEntry => e.slug)
      (List.take_sublist _ _)).nodup
      (dedupEntries_slug_nodup (collectEntries subs))
  · exact dedupEntries_slug_nodup (collectEntries subs)

/-! ## C9: order-independence of result folding -/

/-- C9: folding any fixed list of fetch outcomes with pairwise-distinct
externalIds into the next dataset and next state store yields the same
key-value mappings and the same counters for every permutation of arrival
order. -/
theorem fold_order_independence (stateRecords : Dict EntityState)
    (rowsBySlug : Dict (List Row)) (now : String) (acc : FetchAcc)
    (outs₁ outs₂ : List (SitemapEntry × FetchOutcome))
    (hperm : outs₁.Perm outs₂)
    (hnd : (outs₁.map (fun p => p.1.slug)).Nodup) :
    (∀ k, dictGet (outs₁.foldl (fun a p =>
        processFetchResult stateRecords rowsBySlug now a p.1 p.2) acc).nextRecords k =
      dictGet (outs₂.foldl (fun a p =>
        processFetchResult stateRecords rowsBySlug now a p.1 p.2) acc).nextRecords k) ∧
    (∀ k, dictGet (outs₁.foldl (fun a p =>
        processFetchResult stateRecords rowsBySlug now a p.1 p.2) acc).nextStateRecords k =
      dictGet (outs₂.foldl (fun a p =>
        processFetchResult stateRecords rowsBySlug now a p.1 p.2) acc).nextStateRecords k) ∧
    (outs₁.foldl (fun a p =>
        processFetchResult stateRecords rowsBySlug now a p.1 p.2) acc).fetchedOk =
      (outs₂.foldl (fun a p =>
        processFetchResult stateRecords rowsBySlug now a p.1 p.2) acc).fetchedOk ∧
    (outs₁.foldl (fun a p =>
        processFetchResult stateRecords rowsBySlug now a p.1 p.2) acc).fetchedMissing =
      (outs₂.foldl (fun a p =>
        processFetchResult stateRecords rowsBySlug now a p.1 p.2) acc).fetchedMissing ∧
    (outs₁.foldl (fun a p =>
        processFetchResult stateRecords rowsBySlug now a p.1 p.2) acc).fetchedError =
      (outs₂.foldl (fun a p =>
        processFetchResult stateRecords rowsBySlug now a p.1 p.2) acc).fetchedError :=
  fetchFold_perm stateRecords rowsBySlug now hperm acc hnd

/-- A second sample entry with a slug distinct from `sampleEntry`. -/
def sampleEntryB : SitemapEntry :=
  { url := "https://x/medicament/b/", slug := "b", lastmod := none }

/-- A concrete `ok` outcome. -/
def okOutcomeA : FetchOutcome :=
  { status := "ok", record := some { id := "a", name := "A" }, message := "" }

/-- A concrete `missing` outcome. -/
def missOutcomeB : FetchOutcome :=
  { status := "missing", record := none, message := "http 404" }

/-- Witness for `fold_order_independence` on two concrete outcomes arriving in
both orders, checked at the two concrete externalIds. -/
theorem fold_order_independence_witness :
    (dictGet ([(sampleEntry, okOutcomeA), (sampleEntryB, missOutcomeB)].foldl
        (fun a p => processFetchResult [] [] "T" a p.1 p.2)
        ⟨[], [], 0, 0, 0⟩).nextRecords "a" =
      dictGet ([(sampleEntryB, missOutcomeB), (sampleEntry, okOutcomeA)].foldl
        (fun a p => processFetchResult [] [] "T" a p.1 p.2)
        ⟨[], [], 0, 0, 0⟩).nextRecords "a") ∧
    (dictGet ([(sampleEntry, okOutcomeA), (sampleEntryB, missOutcomeB)].foldl
        (fun a p => processFetchResult [] [] "T" a p.1 p.2)
        ⟨[], [], 0, 0, 0⟩).nextRecords "b" =
      dictGet ([(sampleEntryB, missOutcomeB), (sampleEntry, okOutcomeA)].foldl
        (fun a p => processFetchResult [] [] "T" a p.1 p.2)
        ⟨[], [], 0, 0, 0⟩).nextRecords "b") :=
  ⟨(fold_order_independence [] [] "T" ⟨[], [], 0, 0, 0⟩
      [(sampleEntry, okOutcomeA), (sampleEntryB, missOutcomeB)]
      [(sampleEntryB, missOutcomeB), (sampleEntry, okOutcomeA)]
      (List.Perm.swap _ _ [])
      (by decide)).1 "a",
   (fold_order_independence [] [] "T" ⟨[], [], 0, 0, 0⟩
      [(sampleEntry, okOutcomeA), (sampleEntryB, missOutcomeB)]
      [(sampleEntryB, missOutcomeB), (sampleEntry, okOutcomeA)]
      (List.Perm.swap _ _ [])
      (by decide)).1 "b"⟩


/-- Witness for `streak_update_discipline` at a concrete missing fetch and a
concrete absent pass. -/
theorem streak_update_discipline_witness :
    (let prev := (dictGet [(sampleEntry.slug,
        ({ missingStreak := 1 } : EntityState))] sampleEntry.slug).getD {}
     let res := processFetchResult [(sampleEntry.slug, { missingStreak := 1 })]
       [] "T" ⟨[], [], 0, 0, 0⟩ sampleEntry missOutcomeB
     let st := (dictGet res.nextStateRecords sampleEntry.slug).getD {}
     st.missingStreak = prev.missingStreak + 1 ∧ st.absentStreak = 0) ∧
    (let prev := (dictGet [(sampleEntry.slug,
        ({ missingStreak := 1 } : EntityState))] sampleEntry.slug).getD {}
     let ast := (dictGet (absentStep [(sampleEntry.slug, { missingStreak := 1 })]
          [] [] ⟨[], [], 0, 0⟩ (sampleEntry.slug, [])).nextStateRecords
        sampleEntry.slug).getD {}
     ast.absentStreak = prev.absentStreak + 1 ∧
     ast.missingStreak = prev.missingStreak) :=
  ⟨(streak_update_discipline [(sampleEntry.slug, { missingStreak := 1 })] [] "T"
      ⟨[], [], 0, 0, 0⟩ sampleEntry missOutcomeB).1.1 rfl,
   (streak_update_discipline [(sampleEntry.slug, { missingStreak := 1 })] [] "T"
      ⟨[], [], 0, 0, 0⟩ sampleEntry missOutcomeB).2 [] ⟨[], [], 0, 0⟩ [] []
      rfl rfl⟩

/-! ## Machinery: fetch-phase fold frames -/

theorem fetchFoldList_recs_frame (stateRecords : Dict EntityState)
    (rowsBySlug : Dict (List Row)) (now : String)
    (fetchFn : SitemapEntry → FetchOutcome) (toFetch : List SitemapEntry)
    (acc : FetchAcc) (k : String) (h : ∀ f ∈ toFetch, f.slug ≠ k) :
    dictGet (toFetch.foldl (fun a e =>
        processFetchResult stateRecords rowsBySlug now a e (fetchFn e)) acc).nextRecords k =
      dictGet acc.nextRecords k := by
  induction toFetch generalizing acc with
  | nil => rfl
  | cons f rest ih =>
      rw [List.foldl_cons, ih _ (fun x hx => h x (List.mem_cons_of_mem _ hx)),
        processFetchResult_recs_frame _ _ _ _ _ _ _ (h f (List.mem_cons_self _ _))]

theorem fetchFoldList_state_frame (stateRecords : Dict EntityState)
    (rowsBySlug : Dict (List Row)) (now : String)
    (fetchFn : SitemapEntry → FetchOutcome) (toFetch : List SitemapEntry)
    (acc : FetchAcc) (k : String) (h : ∀ f ∈ toFetch, f.slug ≠ k) :
    dictGet (toFetch.foldl (fun a e =>
        processFetchResult stateRecords rowsBySlug now a e (fetchFn e)) acc).nextStateRecords k =
      dictGet acc.nextStateRecords k := by
  induction toFetch generalizing acc with
  | nil => rfl
  | cons f rest ih =>
      rw [List.foldl_cons, ih _ (fun x hx => h x (List.mem_cons_of_mem _ hx)),
        processFetchResult_state_frame _ _ _ _ _ _ _ (h f (List.mem_cons_self _ _))]

/-! ## C8: bootstrap mode -/

/-- C8: with an empty state store at process start and the full-refresh flag
unset, every discovered entity that has an existing Record is classified as
reuse — it is never put on the fetch list — and its prior Record is carried
into the output dataset. -/
theorem bootstrap_reuse (args : Args) (input : RunInput)
    (subs : List (Except String (List SitemapEntry)))
    (hstate : input.stateRecords = []) (hfr : args.fullRefresh = false)
    (e : SitemapEntry) (r : Row)
    (he : e ∈ discoveredOf args subs)
    (hex : existingFirst (buildRowsBySlug input.existingRecords) e.slug = some r) :
    e ∉ (computeSummary args subs input).toFetch ∧
    r ∈ (computeSummary args subs input).outputRecords := by
  have hboot : bootstrapOf args input = true := by
    simp [bootstrapOf, hstate, hfr]
  have hdec : schedDecision args.fullRefresh (bootstrapOf args input)
      input.stateRecords (buildRowsBySlug input.existingRecords) e = false := by
    unfold schedDecision
    rw [hfr, hboot, hex]
    simp [shouldFetch]
  have htf : (computeSummary args subs input).toFetch =
      (discoveredOf args subs).filter
        (schedDecision args.fullRefresh (bootstrapOf args input)
          input.stateRecords (buildRowsBySlug input.existingRecords)) := by
    show (schedOf args subs input).toFetch = _
    unfold schedOf
    rw [schedFold_toFetch]
    rfl
  have hnotf : e ∉ (computeSummary args subs input).toFetch := by
    rw [htf]
    intro hmem
    have := (List.mem_filter.mp hmem).2
    rw [hdec] at this
    cases this
  refine ⟨hnotf, ?_⟩
  have hnd := discoveredOf_slug_nodup args subs
  have hlook := schedFold_reuse_lookup args.fullRefresh (bootstrapOf args input)
    input.stateRecords (buildRowsBySlug input.existingRecords) input.now
    (discoveredOf args subs) ⟨[], [], [], 0⟩ e hnd he hdec rfl
  have hframe : ∀ f ∈ (schedOf args subs input).toFetch, f.slug ≠ e.slug := by
    intro f hf hcon
    have hf' : f ∈ (discoveredOf args subs).filter
        (schedDecision args.fullRefresh (bootstrapOf args input)
          input.stateRecords (buildRowsBySlug input.existingRecords)) := by
      rw [← htf]
      exact hf
    have hfd := (List.mem_filter.mp hf').1
    have hfdec := (List.mem_filter.mp hf').2
    have : f = e := List.inj_on_of_nodup_map hnd hfd he hcon
    rw [this, hdec] at hfdec
    cases hfdec
  have hfetch : dictGet (fetchAccOf args subs input).nextRecords e.slug = some r := by
    unfold fetchAccOf
    rw [fetchFoldList_recs_frame _ _ _ _ _ _ _ hframe]
    show dictGet (schedOf args subs input).nextRecords e.slug = some r
    unfold schedOf
    rw [hlook.1, hex]
  have hval : r ∈ dictValues (fetchAccOf args subs input).nextRecords ++
      (absAccOf args subs input).preservedRows :=
    List.mem_append_left _ (dictValues_mem _ _ _ hfetch)
  show r ∈ outputRecordsOf args subs input
  unfold outputRecordsOf
  exact ((List.perm_insertionSort rowOrder _).mem_iff).mpr hval

/-- Witness for `bootstrap_reuse` at a concrete run: an existing record, no
state file, one discovered entry. -/
def bootstrapInput : RunInput :=
  { existingRecords := [{ id := "a", name := "A" }]
    stateRecords := []
    discovery := .indexOk [.ok [sampleEntry]]
    fetchFn := okFetchFn
    now := "2025-01-01T00:00:00Z" }

/-- Witness for `bootstrap_reuse`. -/
theorem bootstrap_reuse_witness :
    sampleEntry ∉ (computeSummary {} [.ok [sampleEntry]] bootstrapInput).toFetch ∧
    ({ id := "a", name := "A" } : Row) ∈
      (computeSummary {} [.ok [sampleEntry]] bootstrapInput).outputRecords :=
  bootstrap_reuse {} bootstrapInput [.ok [sampleEntry]] rfl rfl sampleEntry
    { id := "a", name := "A" } (by decide) (by decide)


/-! ## Machinery: state-row coverage across the three folds -/

theorem scheduleStep_state_mono (fullRefresh bootstrap : Bool)
    (stateRecords : Dict EntityState) (rowsBySlug : Dict (List Row))
    (now : String) (acc : SchedAcc) (e : SitemapEntry) (k : String)
    (h : (dictGet acc.nextStateRecords k).isSome) :
    (dictGet (scheduleStep fullRefresh bootstrap stateRecords rowsBySlug now acc e).nextStateRecords k).isSome := by
  by_cases hk : e.slug = k
  · subst hk
    dsimp only [scheduleStep]
    split
    · exact h
    · cases existingFirst rowsBySlug e.slug <;> simp [dictGet_update_self]
  · rw [scheduleStep_state_frame _ _ _ _ _ _ _ _ hk]
    exact h

theorem schedFold_state_mono (fullRefresh bootstrap : Bool)
    (stateRecords : Dict EntityState) (rowsBySlug : Dict (List Row))
    (now : String) (entries : List SitemapEntry) (acc : SchedAcc) (k : String)
    (h : (dictGet acc.nextStateRecords k).isSome) :
    (dictGet (entries.foldl (scheduleStep fullRefresh bootstrap stateRecords rowsBySlug now) acc).nextStateRecords k).isSome := by
  induction entries generalizing acc with
  | nil => exact h
  | cons e rest ih =>
      rw [List.foldl_cons]
      exact ih _ (scheduleStep_state_mono _ _ _ _ _ _ _ _ h)

theorem scheduleStep_state_some_of_reuse (fullRefresh bootstrap : Bool)
    (stateRecords : Dict EntityState) (rowsBySlug : Dict (List Row))
    (now : String) (acc : SchedAcc) (e : SitemapEntry)
    (hdec : schedDecision fullRefresh bootstrap stateRecords rowsBySlug e = false) :
    (dictGet (scheduleStep fullRefresh bootstrap stateRecords rowsBySlug now acc e).nextStateRecords e.slug).isSome := by
  unfold schedDecision at hdec
  dsimp only [scheduleStep]
  rw [if_neg (by simp [hdec])]
  cases existingFirst rowsBySlug e.slug <;> simp [dictGet_update_self]

theorem schedFold_state_covers (fullRefresh bootstrap : Bool)
    (stateRecords : Dict EntityState) (rowsBySlug : Dict (List Row))
    (now : String) (entries : List SitemapEntry) (acc : SchedAcc)
    (e : SitemapEntry) (he : e ∈ entries) :
    (dictGet (entries.foldl (scheduleStep fullRefresh bootstrap stateRecords rowsBySlug now) acc).nextStateRecords e.slug).isSome ∨
    e ∈ (entries.foldl (scheduleStep fullRefresh bootstrap stateRecords rowsBySlug now) acc).toFetch := by
  induction entries generalizing acc with
  | nil => cases he
  | cons a rest ih =>
      rw [List.foldl_cons]
      rcases List.mem_cons.mp he with rfl | hmem
      · by_cases hdec : schedDecision fullRefresh bootstrap stateRecords rowsBySlug e = true
        · right
          rw [schedFold_toFetch, scheduleStep_toFetch, if_pos hdec]
          exact List.mem_append_left _ (List.mem_append_right _ (List.mem_singleton.mpr rfl))
        · left
          rw [Bool.not_eq_true] at hdec
          exact schedFold_state_mono _ _ _ _ _ _ _ _
            (scheduleStep_state_some_of_reuse _ _ _ _ _ _ _ hdec)
      · exact ih _ hmem

theorem processFetchResult_state_mono (stateRecords : Dict EntityState)
    (rowsBySlug : Dict (List Row)) (now : String) (acc : FetchAcc)
    (e : SitemapEntry) (o : FetchOutcome) (k : String)
    (h : (dictGet acc.nextStateRecords k).isSome) :
    (dictGet (processFetchResult stateRecords rowsBySlug now acc e o).nextStateRecords k).isSome := by
  by_cases hk : e.slug = k
  · subst hk
    rw [processFetchResult_state_self]
    rfl
  · rw [processFetchResult_state_frame _ _ _ _ _ _ _ hk]
    exact h

theorem fetchFoldList_state_mono (stateRecords : Dict EntityState)
    (rowsBySlug : Dict (List Row)) (now : String)
    (fetchFn : SitemapEntry → FetchOutcome) (toFetch : List SitemapEntry)
    (acc : FetchAcc) (k : String)
    (h : (dictGet acc.nextStateRecords k).isSome) :
    (dictGet (toFetch.foldl (fun a e =>
        processFetchResult stateRecords rowsBySlug now a e (fetchFn e)) acc).nextStateRecords k).isSome := by
  induction toFetch generalizing acc with
  | nil => exact h
  | cons f rest ih =>
      rw [List.foldl_cons]
      exact ih _ (processFetchResult_state_mono _ _ _ _ _ _ _ h)

theorem fetchFoldList_state_covers (stateRecords : Dict EntityState)
    (rowsBySlug : Dict (List Row)) (now : String)
    (fetchFn : SitemapEntry → FetchOutcome) (toFetch : List SitemapEntry)
    (acc : FetchAcc) (e : SitemapEntry) (he : e ∈ toFetch) :
    (dictGet (toFetch.foldl (fun a f =>
        processFetchResult stateRecords rowsBySlug now a f (fetchFn f)) acc).nextStateRecords e.slug).isSome := by
  induction toFetch generalizing acc with
  | nil => cases he
  | cons f rest ih =>
      rw [List.foldl_cons]
      rcases List.mem_cons.mp he with rfl | hmem
      · refine fetchFoldList_state_mono _ _ _ _ _ _ _ ?_
        rw [processFetchResult_state_self]
        rfl
      · exact ih _ hmem

theorem scheduleStep_recs_keys (fullRefresh bootstrap : Bool)
    (stateRecords : Dict EntityState) (rowsBySlug : Dict (List Row))
    (now : String) (acc : SchedAcc) (e : SitemapEntry) (k : String)
    (h : (dictGet (scheduleStep fullRefresh bootstrap stateRecords rowsBySlug now acc e).nextRecords k).isSome) :
    (dictGet acc.nextRecords k).isSome ∨ k = e.slug := by
  by_cases hk : e.slug = k
  · exact Or.inr hk.symm
  · rw [scheduleStep_recs_frame _ _ _ _ _ _ _ _ hk] at h
    exact Or.inl h

theorem schedFold_recs_keys (fullRefresh bootstrap : Bool)
    (stateRecords : Dict EntityState) (rowsBySlug : Dict (List Row))
    (now : String) (entries : List SitemapEntry) (acc : SchedAcc) (k : String)
    (h : (dictGet (entries.foldl (scheduleStep fullRefresh bootstrap stateRecords rowsBySlug now) acc).nextRecords k).isSome) :
    (dictGet acc.nextRecords k).isSome ∨ k ∈ entries.map (·.slug) := by
  induction entries generalizing acc with
  | nil => exact Or.inl h
  | cons a rest ih =>
      rw [List.foldl_cons] at h
      rcases ih _ h with h' | h'
      · rcases scheduleStep_recs_keys _ _ _ _ _ _ _ _ h' with h'' | h''
        · exact Or.inl h''
        · exact Or.inr (by simp [h''])
      · exact Or.inr (by simp [h'])

theorem processFetchResult_recs_keys (stateRecords : Dict EntityState)
    (rowsBySlug : Dict (List Row)) (now : String) (acc : FetchAcc)
    (e : SitemapEntry) (o : FetchOutcome) (k : String)
    (h : (dictGet (processFetchResult stateRecords rowsBySlug now acc e o).nextRecords k).isSome) :
    (dictGet acc.nextRecords k).isSome ∨ k = e.slug := by
  by_cases hk : e.slug = k
  · exact Or.inr hk.symm
  · rw [processFetchResult_recs_frame _ _ _ _ _ _ _ hk] at h
    exact Or.inl h

theorem fetchFoldList_recs_keys (stateRecords : Dict EntityState)
    (rowsBySlug : Dict (List Row)) (now : String)
    (fetchFn : SitemapEntry → FetchOutcome) (toFetch : List SitemapEntry)
    (acc : FetchAcc) (k : String)
    (h : (dictGet (toFetch.foldl (fun a f =>
        processFetchResult stateRecords rowsBySlug now a f (fetchFn f)) acc).nextRecords k).isSome) :
    (dictGet acc.nextRecords k).isSome ∨ k ∈ toFetch.map (·.slug) := by
  induction toFetch generalizing acc with
  | nil => exact Or.inl h
  | cons f rest ih =>
      rw [List.foldl_cons] at h
      rcases ih _ h with h' | h'
      · rcases processFetchResult_recs_keys _ _ _ _ _ _ _ h' with h'' | h''
        · exact Or.inl h''
        · exact Or.inr (by simp [h''])
      · exact Or.inr (by simp [h'])

theorem absentStep_state_mono (stateRecords : Dict EntityState)
    (discoveredSlugs : List String) (nextRecords : Dict Row)
    (acc : AbsentAcc) (g : String × List Row) (k : String)
    (h : (dictGet acc.nextStateRecords k).isSome) :
    (dictGet (absentStep stateRecords discoveredSlugs nextRecords acc g).nextStateRecords k).isSome := by
  dsimp only [absentStep]
  split
  · split <;> exact h
  · split
    · exact h
    · split <;> exact dictGet_update_isSome _ _ _ _ h

theorem absentFold_state_mono (stateRecords : Dict EntityState)
    (discoveredSlugs : List String) (nextRecords : Dict Row)
    (groups : Dict (List Row)) (acc : AbsentAcc) (k : String)
    (h : (dictGet acc.nextStateRecords k).isSome) :
    (dictGet (groups.foldl (absentStep stateRecords discoveredSlugs nextRecords) acc).nextStateRecords k).isSome := by
  induction groups generalizing acc with
  | nil => exact h
  | cons g rest ih =>
      rw [List.foldl_cons]
      exact ih _ (absentStep_state_mono _ _ _ _ _ _ h)

theorem absentFold_state_covers (stateRecords : Dict EntityState)
    (discoveredSlugs : List String) (nextRecords : Dict Row)
    (groups : Dict (List Row)) (acc : AbsentAcc) (g : String × List Row)
    (hg : g ∈ groups)
    (hcov : (dictGet nextRecords g.1).isSome ∨ discoveredSlugs.contains g.1 = true →
      (dictGet acc.nextStateRecords g.1).isSome) :
    (dictGet (groups.foldl (absentStep stateRecords discoveredSlugs nextRecords) acc).nextStateRecords g.1).isSome := by
  induction groups generalizing acc with
  | nil => cases hg
  | cons a rest ih =>
      rw [List.foldl_cons]
      rcases List.mem_cons.mp hg with rfl | hmem
      · by_cases h1 : (dictGet nextRecords g.1).isSome
        · refine absentFold_state_mono _ _ _ _ _ _ ?_
          exact absentStep_state_mono _ _ _ _ _ _ (hcov (Or.inl h1))
        · by_cases h2 : discoveredSlugs.contains g.1 = true
          · refine absentFold_state_mono _ _ _ _ _ _ ?_
            exact absentStep_state_mono _ _ _ _ _ _ (hcov (Or.inr h2))
          · refine absentFold_state_mono _ _ _ _ _ _ ?_
            dsimp only [absentStep]
            rw [if_neg h1, if_neg h2]
            split <;> simp [dictGet_update_self]
      · exact ih _ hmem (fun hc => absentStep_state_mono _ _ _ _ _ _ (hcov hc))


/-! ## C2: persistence of EntityState rows -/

theorem discovered_state_some (args : Args) (input : RunInput)
    (subs : List (Except String (List SitemapEntry))) (slug : String)
    (hds : slug ∈ (discoveredOf args subs).map (·.slug)) :
    (dictGet (fetchAccOf args subs input).nextStateRecords slug).isSome := by
  obtain ⟨e, he, rfl⟩ := List.mem_map.mp hds
  dsimp only [fetchAccOf]
  rcases schedFold_state_covers args.fullRefresh (bootstrapOf args input)
      input.stateRecords (buildRowsBySlug input.existingRecords) input.now
      (discoveredOf args subs) ⟨[], [], [], 0⟩ e he with h | h
  · exact fetchFoldList_state_mono _ _ _ _ _ _ _ h
  · exact fetchFoldList_state_covers _ _ _ _ _ _ e h

/-- C2 (amended): a completed run's output state store contains a row for
every externalId that was discovered this run and for every externalId that
still has rows in the input dataset; but an externalId that is neither
discovered nor present in the dataset (e.g. one whose Record was already
dropped after `ABSENT_GRACE_RUNS`) has its state row silently dropped when the
state store is rewritten — state rows are NOT kept forever. -/
theorem state_rows_persist (args : Args) (input : RunInput)
    (subs : List (Except String (List SitemapEntry))) (slug : String)
    (h : slug ∈ (discoveredOf args subs).map (·.slug) ∨
      (dictGet (buildRowsBySlug input.existingRecords) slug).isSome) :
    (dictGet (computeSummary args subs input).nextStateRecords slug).isSome := by
  show (dictGet (absAccOf args subs input).nextStateRecords slug).isSome
  rcases h with hds | hrow
  · dsimp only [absAccOf]
    exact absentFold_state_mono _ _ _ _ _ _
      (discovered_state_some args input subs slug hds)
  · obtain ⟨rows, hrows⟩ := Option.isSome_iff_exists.mp hrow
    have hmem : (slug, rows) ∈ buildRowsBySlug input.existingRecords :=
      dictGet_some_mem _ _ _ hrows
    dsimp only [absAccOf]
    refine absentFold_state_covers _ _ _ _ _ (slug, rows) hmem ?_
    intro hc
    have hds : slug ∈ (discoveredOf args subs).map (·.slug) := by
      rcases hc with hc | hc
      · dsimp only [fetchAccOf] at hc
        rcases fetchFoldList_recs_keys _ _ _ _ _ _ _ hc with hc' | hc'
        · rcases schedFold_recs_keys _ _ _ _ _ _ _ _ hc' with hc'' | hc''
          · simp [dictGet] at hc''
          · exact hc''
        · obtain ⟨f, hf, rfl⟩ := List.mem_map.mp hc'
          have htf : (schedOf args subs input).toFetch =
              (discoveredOf args subs).filter
                (schedDecision args.fullRefresh (bootstrapOf args input)
                  input.stateRecords (buildRowsBySlug input.existingRecords)) := by
            unfold schedOf
            rw [schedFold_toFetch]
            rfl
          rw [htf] at hf
          exact List.mem_map_of_mem _ (List.mem_of_mem_filter hf)
      · simpa using hc
    exact discovered_state_some args input subs slug hds

/-- Witness for `state_rows_persist` at a concrete run. -/
theorem state_rows_persist_witness :
    (dictGet (computeSummary {} [.ok [sampleEntry]] freshInput).nextStateRecords
      "a").isSome :=
  state_rows_persist {} freshInput [.ok [sampleEntry]] "a" (Or.inl (by decide))

/-- A run whose state store holds an `absent` row whose Record was already
dropped (streak past the grace period, no dataset rows left), and whose slug
no longer appears in discovery. -/
def staleAbsentInput : RunInput :=
  { existingRecords := []
    stateRecords := [("gone", { status := some "absent", absentStreak := 7 })]
    discovery := .indexOk [.ok []]
    fetchFn := okFetchFn
    now := "2025-01-03T00:00:00Z" }

/-- C2 counterexample: the state row of a fully-lapsed absent entity is
deleted by the next completed run — the rewritten state store no longer
contains its externalId, contradicting "EntityState rows are never deleted".
-/
theorem state_row_not_persisted :
    (dictGet staleAbsentInput.stateRecords "gone").isSome = true ∧
    runMain {} staleAbsentInput =
      .written (computeSummary {} [.ok []] staleAbsentInput) ∧
    dictGet (computeSummary {} [.ok []] staleAbsentInput).nextStateRecords
      "gone" = none :=
  ⟨by decide, rfl, by decide⟩


/-! ## Machinery: order theory for the output sort -/

theorem charListLt_iff (a b : List Char) :
    charListLt a b = true ↔ List.Lex (· < ·) a b := by
  induction a generalizing b with
  | nil =>
      cases b with
      | nil => simp [charListLt]
      | cons y ys => simp [charListLt]; exact List.Lex.nil
  | cons x xs ih =>
      cases b with
      | nil => simp [charListLt]
      | cons y ys =>
          by_cases hxy : x < y
          · simp [charListLt, hxy]
            exact List.Lex.rel hxy
          · by_cases hyx : y < x
            · simp only [charListLt, if_neg hxy, if_pos hyx]
              constructor
              · intro h
                cases h
              · intro h
                cases h with
                | cons h' => exact absurd hyx (lt_irrefl _)
                | rel h' => exact absurd h' (asymm hyx)
            · have hxy' : x = y := le_antisymm (not_lt.mp hyx) (not_lt.mp hxy)
              subst hxy'
              simp only [charListLt, if_neg hxy, if_neg hyx, ih]
              exact (List.Lex.cons_iff (r := (· < ·))).symm

theorem strLt_asymm {a b : String} (h : strLt a b = true) : strLt b a = false := by
  unfold strLt at h ⊢
  rw [charListLt_iff] at h
  rw [Bool.eq_false_iff, Ne, charListLt_iff]
  intro h'
  exact absurd h (asymm (r := List.Lex (· < ·)) h')

theorem strLt_trans {a b c : String} (h₁ : strLt a b = true)
    (h₂ : strLt b c = true) : strLt a c = true := by
  unfold strLt at h₁ h₂ ⊢
  rw [charListLt_iff] at h₁ h₂ ⊢
  exact lt_trans (α := List Char) h₁ h₂

theorem strLt_connex {a b : String} (h₁ : strLt a b = false)
    (h₂ : strLt b a = false) : a = b := by
  unfold strLt at h₁ h₂
  rw [Bool.eq_false_iff, Ne, charListLt_iff] at h₁ h₂
  have : a.data = b.data := by
    rcases lt_trichotomy a.data b.data with h | h | h
    · exact absurd h h₁
    · exact h
    · exact absurd h h₂
  cases a
  cases b
  exact congrArg String.mk (by simpa using this)


theorem strLe_refl (a : String) : strLe a a = true := by
  simp [strLe]

theorem pairLe_total (a b : String × String) :
    pairLe a b = true ∨ pairLe b a = true := by
  by_cases l1 : strLt a.1 b.1 = true
  · exact Or.inl (by simp [pairLe, l1])
  · by_cases l2 : strLt b.1 a.1 = true
    · exact Or.inr (by simp [pairLe, l2])
    · have he : a.1 = b.1 :=
        strLt_connex (Bool.not_eq_true _ ▸ l1) (Bool.not_eq_true _ ▸ l2)
      by_cases m1 : strLt a.2 b.2 = true
      · exact Or.inl (by simp [pairLe, strLe, he, m1])
      · by_cases m2 : strLt b.2 a.2 = true
        · exact Or.inr (by simp [pairLe, strLe, he.symm, m2])
        · have he2 : a.2 = b.2 :=
            strLt_connex (Bool.not_eq_true _ ▸ m1) (Bool.not_eq_true _ ▸ m2)
          exact Or.inl (by simp [pairLe, strLe, he, he2])

theorem strLe_trans {a b c : String} (h₁ : strLe a b = true)
    (h₂ : strLe b c = true) : strLe a c = true := by
  simp only [strLe, Bool.or_eq_true, beq_iff_eq] at h₁ h₂ ⊢
  rcases h₁ with h₁ | h₁
  · rcases h₂ with h₂ | h₂
    · exact Or.inl (strLt_trans h₁ h₂)
    · exact Or.inl (h₂ ▸ h₁)
  · subst h₁
    exact h₂

theorem pairLe_trans {a b c : String × String} (h₁ : pairLe a b = true)
    (h₂ : pairLe b c = true) : pairLe a c = true := by
  simp only [pairLe, Bool.or_eq_true, Bool.and_eq_true, beq_iff_eq] at h₁ h₂ ⊢
  rcases h₁ with h₁ | ⟨he₁, hl₁⟩
  · rcases h₂ with h₂ | ⟨he₂, hl₂⟩
    · exact Or.inl (strLt_trans h₁ h₂)
    · exact Or.inl (he₂ ▸ h₁)
  · rcases h₂ with h₂ | ⟨he₂, hl₂⟩
    · exact Or.inl (he₁ ▸ h₂)
    · exact Or.inr ⟨he₁.trans he₂, strLe_trans hl₁ hl₂⟩

theorem strLe_antisymm {a b : String} (h₁ : strLe a b = true)
    (h₂ : strLe b a = true) : a = b := by
  simp only [strLe, Bool.or_eq_true, beq_iff_eq] at h₁ h₂
  rcases h₁ with h₁ | h₁
  · rcases h₂ with h₂ | h₂
    · exact absurd h₁ (by rw [strLt_asymm h₂]; simp)
    · exact h₂.symm
  · exact h₁

theorem pairLe_antisymm {a b : String × String} (h₁ : pairLe a b = true)
    (h₂ : pairLe b a = true) : a = b := by
  simp only [pairLe, Bool.or_eq_true, Bool.and_eq_true, beq_iff_eq] at h₁ h₂
  rcases h₁ with h₁ | ⟨he₁, hl₁⟩
  · rcases h₂ with h₂ | ⟨he₂, hl₂⟩
    · exact absurd h₁ (by rw [strLt_asymm h₂]; simp)
    · exact absurd h₁ (by rw [he₂]; cases a; cases b; simp [strLt, charListLt_iff]; exact fun hc => absurd hc (irrefl _))
  · rcases h₂ with h₂ | ⟨he₂, hl₂⟩
    · exact absurd h₂ (by rw [he₁]; cases a; cases b; simp [strLt, charListLt_iff]; exact fun hc => absurd hc (irrefl _))
    · exact Prod.ext he₁ (strLe_antisymm hl₁ hl₂)

instance : IsTotal Row rowOrder :=
  ⟨fun a b => pairLe_total (rowKey a) (rowKey b)⟩

instance : IsTrans Row rowOrder :=
  ⟨fun _ _ _ h₁ h₂ => pairLe_trans h₁ h₂⟩

/-- The strict version of the output order: strictly smaller sort key. -/
def rowStrict (a b : Row) : Prop := rowOrder a b ∧ rowKey a ≠ rowKey b

instance : IsAntisymm Row rowStrict :=
  ⟨fun _ _ h₁ h₂ => absurd (pairLe_antisymm h₁.1 h₂.1) h₁.2⟩

/-- Two sorted lists with pairwise-distinct sort keys that are permutations of
each other are equal. -/
theorem sorted_unique_keys (l₁ l₂ : List Row) (hperm : l₁.Perm l₂)
    (hs₁ : l₁.Pairwise rowOrder) (hs₂ : l₂.Pairwise rowOrder)
    (hk : (l₁.map rowKey).Nodup) : l₁ = l₂ := by
  have hk₂ : (l₂.map rowKey).Nodup := (hperm.map rowKey).nodup hk
  have hne₁ : l₁.Pairwise (fun a b => rowKey a ≠ rowKey b) :=
    List.pairwise_map.mp hk
  have hne₂ : l₂.Pairwise (fun a b => rowKey a ≠ rowKey b) :=
    List.pairwise_map.mp hk₂
  exact List.eq_of_perm_of_sorted (r := rowStrict) hperm
    (hs₁.and hne₁) (hs₂.and hne₂)


/-! ## Machinery: grouping permutation for the existing dataset -/

theorem dictUpdate_append {α : Type} (d : Dict α) (k : String) (v : α)
    (h : dictGet d k = none) : dictUpdate d k v = d ++ [(k, v)] := by
  induction d with
  | nil => rfl
  | cons p rest ih =>
      obtain ⟨k₀, v₀⟩ := p
      by_cases hk : k₀ = k
      · subst hk
        simp [dictGet] at h
      · simp only [dictGet, if_neg hk] at h
        simp [dictUpdate, hk, ih h]

theorem dictGet_append_of_none {α : Type} (d₁ d₂ : Dict α) (k : String)
    (h : dictGet d₁ k = none) : dictGet (d₁ ++ d₂) k = dictGet d₂ k := by
  induction d₁ with
  | nil => rfl
  | cons p rest ih =>
      obtain ⟨k₀, v₀⟩ := p
      by_cases hk : k₀ = k
      · subst hk
        simp [dictGet] at h
      · simp only [dictGet, if_neg hk] at h
        simp only [List.cons_append, dictGet, if_neg hk]
        exact ih h

theorem dictGet_of_mem_nodup {α : Type} (d : Dict α)
    (hnd : (dictKeys d).Nodup) (p : String × α) (hp : p ∈ d) :
    dictGet d p.1 = some p.2 := by
  induction d with
  | nil => cases hp
  | cons q rest ih =>
      obtain ⟨k₀, v₀⟩ := q
      simp only [dictKeys, List.map_cons, List.nodup_cons] at hnd
      cases hp with
      | head => simp [dictGet]
      | tail _ hmem =>
          have hk : k₀ ≠ p.1 := by
            intro hc
            exact hnd.1 (hc ▸ List.mem_map_of_mem (·.1) hmem)
          simp only [dictGet, if_neg hk]
          exact ih hnd.2 hmem

/-- Replacing a group by itself extended with one more row permutes the
flattened dict by appending that row. -/
theorem flatten_dictUpdate_append_perm (d : Dict (List Row)) (k : String)
    (x : Row) : ∀ g, dictGet d k = some g →
    ((dictUpdate d k (g ++ [x])).map (·.2)).flatten.Perm
      ((d.map (·.2)).flatten ++ [x]) := by
  induction d with
  | nil =>
      intro g hget
      simp [dictGet] at hget
  | cons q rest ih =>
      intro g hget
      obtain ⟨k₀, g₀⟩ := q
      by_cases hk : k₀ = k
      · subst hk
        simp [dictGet] at hget
        subst hget
        have hupd : dictUpdate ((k₀, g₀) :: rest) k₀ (g₀ ++ [x]) =
            (k₀, g₀ ++ [x]) :: rest := by
          simp [dictUpdate]
        rw [hupd]
        simp only [List.map_cons, List.flatten_cons]
        rw [List.append_assoc, List.append_assoc]
        exact List.Perm.append_left _ List.perm_append_comm
      · simp only [dictGet, if_neg hk] at hget
        simp only [dictUpdate, if_neg hk, List.map_cons, List.flatten_cons]
        rw [List.append_assoc]
        exact List.Perm.append_left _ (ih g hget)

/-- Fold invariant of `buildRowsBySlug`: distinct keys, non-empty groups, and
the flattened groups are a permutation of the non-skipped rows. -/
theorem buildRowsBySlug_fold_invariant (records : List Row) :
    ∀ d : Dict (List Row), (dictKeys d).Nodup → (∀ g ∈ d, g.2 ≠ []) →
      (dictKeys (records.foldl (fun d item =>
        if item.id = "" then d
        else match dictGet d item.id with
          | some rows => dictUpdate d item.id (rows ++ [item])
          | none => dictUpdate d item.id [item]) d)).Nodup ∧
      (∀ g ∈ records.foldl (fun d item =>
        if item.id = "" then d
        else match dictGet d item.id with
          | some rows => dictUpdate d item.id (rows ++ [item])
          | none => dictUpdate d item.id [item]) d, g.2 ≠ []) ∧
      ((records.foldl (fun d item =>
        if item.id = "" then d
        else match dictGet d item.id with
          | some rows => dictUpdate d item.id (rows ++ [item])
          | none => dictUpdate d item.id [item]) d).map (·.2)).flatten.Perm
        ((d.map (·.2)).flatten ++ records.filter (fun r => ¬ r.id = "")) := by
  induction records with
  | nil =>
      intro d h₁ h₂
      refine ⟨h₁, h₂, by simp⟩
  | cons r rest ih =>
      intro d h₁ h₂
      rw [List.foldl_cons]
      by_cases hid : r.id = ""
      · rw [if_pos hid]
        obtain ⟨ha, hb, hc⟩ := ih d h₁ h₂
        refine ⟨ha, hb, ?_⟩
        refine hc.trans ?_
        rw [List.filter_cons, if_neg (by simp [hid])]
      · rw [if_neg hid]
        cases hget : dictGet d r.id with
        | none =>
            have hupd : dictUpdate d r.id [r] = d ++ [(r.id, [r])] :=
              dictUpdate_append _ _ _ hget
            have hkeys : (dictKeys (dictUpdate d r.id [r])).Nodup :=
              dictKeys_update_nodup _ _ _ h₁
            have hgrp : ∀ g ∈ dictUpdate d r.id [r], g.2 ≠ [] := by
              intro g hg
              rcases mem_dictUpdate hg with hg' | hg'
              · exact h₂ g hg'
              · subst hg'
                simp
            obtain ⟨ha, hb, hc⟩ := ih _ hkeys hgrp
            refine ⟨ha, hb, ?_⟩
            refine hc.trans ?_
            rw [hupd, List.filter_cons, if_pos (by simp [hid]),
              List.map_append, List.flatten_append]
            simp [List.append_assoc]
        | some g =>
            have hkeys : (dictKeys (dictUpdate d r.id (g ++ [r]))).Nodup :=
              dictKeys_update_nodup _ _ _ h₁
            have hgrp : ∀ g' ∈ dictUpdate d r.id (g ++ [r]), g'.2 ≠ [] := by
              intro g' hg'
              rcases mem_dictUpdate hg' with hg'' | hg''
              · exact h₂ g' hg''
              · subst hg''
                simp
            obtain ⟨ha, hb, hc⟩ := ih _ hkeys hgrp
            refine ⟨ha, hb, ?_⟩
            refine hc.trans ?_
            rw [List.filter_cons, if_pos (by simp [hid])]
            refine (List.Perm.append_right _
              (flatten_dictUpdate_append_perm d r.id r g hget)).trans ?_
            rw [List.append_assoc]
            exact List.Perm.refl _

theorem buildRowsBySlug_invariant (records : List Row) :
    (dictKeys (buildRowsBySlug records)).Nodup ∧
    (∀ g ∈ buildRowsBySlug records, g.2 ≠ []) ∧
    ((buildRowsBySlug records).map (·.2)).flatten.Perm
      (records.filter (fun r => ¬ r.id = "")) := by
  obtain ⟨h₁, h₂, h₃⟩ := buildRowsBySlug_fold_invariant records []
    (by simp [dictKeys]) (by simp)
  exact ⟨h₁, h₂, by simpa using h₃⟩

/-- Splitting each non-empty group into its head and tail. -/
theorem flatten_heads_tails (d : Dict (List Row)) (hne : ∀ g ∈ d, g.2 ≠ []) :
    (d.map (·.2)).flatten.Perm
      (d.map (fun g => g.2.headI) ++ (d.map (fun g => g.2.tail)).flatten) := by
  induction d with
  | nil => simp
  | cons g rest ih =>
      have hg : g.2.headI :: g.2.tail = g.2 := by
        cases hcase : g.2 with
        | nil => exact absurd hcase (hne g (List.mem_cons_self _ _))
        | cons a t => simp
      have ih' := ih (fun g' hg' => hne g' (List.mem_cons_of_mem _ hg'))
      simp only [List.map_cons, List.flatten_cons, List.cons_append]
      rw [← hg, List.cons_append]
      refine List.Perm.cons _ ?_
      refine (List.Perm.append_left _ ih').trans ?_
      rw [← List.append_assoc, ← List.append_assoc]
      exact List.Perm.append_right _ List.perm_append_comm


/-! ## Machinery: the all-reuse (steady-state) run -/

theorem scheduleStep_state_keys (fullRefresh bootstrap : Bool)
    (stateRecords : Dict EntityState) (rowsBySlug : Dict (List Row))
    (now : String) (acc : SchedAcc) (e : SitemapEntry) (k : String)
    (h : (dictGet (scheduleStep fullRefresh bootstrap stateRecords rowsBySlug now acc e).nextStateRecords k).isSome) :
    (dictGet acc.nextStateRecords k).isSome ∨ k = e.slug := by
  by_cases hk : e.slug = k
  · exact Or.inr hk.symm
  · rw [scheduleStep_state_frame _ _ _ _ _ _ _ _ hk] at h
    exact Or.inl h

theorem schedFold_state_keys (fullRefresh bootstrap : Bool)
    (stateRecords : Dict EntityState) (rowsBySlug : Dict (List Row))
    (now : String) (entries : List SitemapEntry) (acc : SchedAcc) (k : String)
    (h : (dictGet (entries.foldl (scheduleStep fullRefresh bootstrap stateRecords rowsBySlug now) acc).nextStateRecords k).isSome) :
    (dictGet acc.nextStateRecords k).isSome ∨ k ∈ entries.map (·.slug) := by
  induction entries generalizing acc with
  | nil => exact Or.inl h
  | cons a rest ih =>
      rw [List.foldl_cons] at h
      rcases ih _ h with h' | h'
      · rcases scheduleStep_state_keys _ _ _ _ _ _ _ _ h' with h'' | h''
        · exact Or.inl h''
        · exact Or.inr (by simp [h''])
      · exact Or.inr (by simp [h'])

theorem schedFold_reuse_dict (fullRefresh bootstrap : Bool)
    (stateRecords : Dict EntityState) (rowsBySlug : Dict (List Row))
    (now : String) (entries : List SitemapEntry) :
    ∀ acc : SchedAcc, (entries.map (·.slug)).Nodup →
      (∀ e ∈ entries,
        schedDecision fullRefresh bootstrap stateRecords rowsBySlug e = false) →
      (∀ e ∈ entries, (existingFirst rowsBySlug e.slug).isSome) →
      (∀ e ∈ entries, dictGet acc.nextRecords e.slug = none) →
      (entries.foldl (scheduleStep fullRefresh bootstrap stateRecords rowsBySlug now) acc).nextRecords =
        acc.nextRecords ++ entries.map (fun e =>
          (e.slug, (existingFirst rowsBySlug e.slug).getD default)) := by
  induction entries with
  | nil => intro acc _ _ _ _; simp
  | cons a rest ih =>
      intro acc hnd hall hex hacc
      rw [List.map_cons, List.nodup_cons] at hnd
      obtain ⟨r, hr⟩ := Option.isSome_iff_exists.mp (hex a (List.mem_cons_self _ _))
      have hstep : (scheduleStep fullRefresh bootstrap stateRecords rowsBySlug now acc a).nextRecords =
          acc.nextRecords ++ [(a.slug, r)] := by
        dsimp only [scheduleStep]
        rw [if_neg (by
          have := hall a (List.mem_cons_self _ _)
          unfold schedDecision at this
          simp [this])]
        rw [hr]
        simp only []
        exact dictUpdate_append _ _ _ (hacc a (List.mem_cons_self _ _))
      rw [List.foldl_cons]
      have hacc' : ∀ e ∈ rest,
          dictGet (scheduleStep fullRefresh bootstrap stateRecords rowsBySlug now acc a).nextRecords e.slug = none := by
        intro e he
        rw [hstep, dictGet_append_of_none _ _ _ (hacc e (List.mem_cons_of_mem _ he))]
        have hne : a.slug ≠ e.slug := by
          intro hc
          exact hnd.1 (hc ▸ List.mem_map_of_mem (·.slug) he)
        simp [dictGet, hne]
      rw [ih _ hnd.2 (fun e he => hall e (List.mem_cons_of_mem _ he))
        (fun e he => hex e (List.mem_cons_of_mem _ he)) hacc', hstep]
      rw [List.append_assoc]
      simp [hr]

theorem absentFold_all_active (stateRecords : Dict EntityState)
    (discoveredSlugs : List String) (nextRecords : Dict Row)
    (groups : Dict (List Row)) :
    ∀ acc : AbsentAcc, (∀ g ∈ groups, (dictGet nextRecords g.1).isSome) →
      (groups.foldl (absentStep stateRecords discoveredSlugs nextRecords) acc).nextStateRecords =
        acc.nextStateRecords ∧
      (groups.foldl (absentStep stateRecords discoveredSlugs nextRecords) acc).preservedRows =
        acc.preservedRows ++ (groups.map (fun g => g.2.tail)).flatten ∧
      (groups.foldl (absentStep stateRecords discoveredSlugs nextRecords) acc).retainedAbsent =
        acc.retainedAbsent := by
  induction groups with
  | nil => intro acc _; simp
  | cons g rest ih =>
      intro acc hall
      have hg := hall g (List.mem_cons_self _ _)
      have hstep : (absentStep stateRecords discoveredSlugs nextRecords acc g).nextStateRecords =
            acc.nextStateRecords ∧
          (absentStep stateRecords discoveredSlugs nextRecords acc g).preservedRows =
            acc.preservedRows ++ g.2.tail ∧
          (absentStep stateRecords discoveredSlugs nextRecords acc g).retainedAbsent =
            acc.retainedAbsent := by
        dsimp only [absentStep]
        rw [if_pos hg]
        split
        · exact ⟨rfl, rfl, rfl⟩
        · rename_i hlen
          have : g.2.tail = [] := by
            cases hc : g.2 with
            | nil => rfl
            | cons x t =>
                cases t with
                | nil => rfl
                | cons y t' => exact absurd (by simp [hc]) hlen
          rw [this]
          simp
      rw [List.foldl_cons]
      obtain ⟨h₁, h₂, h₃⟩ := ih _ (fun g' hg' => hall g' (List.mem_cons_of_mem _ hg'))
      rw [h₁, h₂, h₃, hstep.1, hstep.2.1, hstep.2.2]
      simp [List.append_assoc]

/-- Every row stored under a key of `existing_rows_by_slug` carries that key
as its id. -/
theorem buildRowsBySlug_ids (records : List Row) :
    ∀ g ∈ buildRowsBySlug records, ∀ r ∈ g.2, r.id = g.1 := by
  suffices h : ∀ d : Dict (List Row), (∀ g ∈ d, ∀ r ∈ g.2, r.id = g.1) →
      ∀ g ∈ records.foldl (fun d item =>
        if item.id = "" then d
        else match dictGet d item.id with
          | some rows => dictUpdate d item.id (rows ++ [item])
          | none => dictUpdate d item.id [item]) d, ∀ r ∈ g.2, r.id = g.1 by
    exact h [] (by simp)
  induction records with
  | nil => exact fun d hd => hd
  | cons x rest ih =>
      intro d hd
      rw [List.foldl_cons]
      by_cases hid : x.id = ""
      · rw [if_pos hid]
        exact ih d hd
      · rw [if_neg hid]
        cases hget : dictGet d x.id with
        | none =>
            refine ih _ ?_
            intro g hg r hr
            rcases mem_dictUpdate hg with hg' | hg'
            · exact hd g hg' r hr
            · subst hg'
              simp at hr
              simp [hr]
        | some rows =>
            refine ih _ ?_
            intro g hg r hr
            rcases mem_dictUpdate hg with hg' | hg'
            · exact hd g hg' r hr
            · subst hg'
              simp only [List.mem_append, List.mem_singleton] at hr
              rcases hr with hr | hr
              · exact hd (x.id, rows) (dictGet_some_mem _ _ _ hget) r hr
              · simp [hr]


/-! ## C6: idempotence of a second run -/

/-- C6 (amended): a second run is idempotent only in the all-`ok` steady
state.  If every discovered entity has a Record and an `ok` state row with
matching `lastModified` and `absentStreak = 0`, every dataset row and every
state row belongs to a discovered entity, and the dataset is sorted with
pairwise-distinct sort keys (no legacy duplicate rows), then the run
classifies every discovered entity as reuse (zero fetches dispatched),
reproduces the output dataset byte-for-byte, and leaves every streak counter
unchanged. -/
theorem second_run_idempotent (args : Args) (input : RunInput)
    (subs : List (Except String (List SitemapEntry)))
    (hfr : args.fullRefresh = false)
    (hsteady : ∀ e ∈ discoveredOf args subs,
      (existingFirst (buildRowsBySlug input.existingRecords) e.slug).isSome ∧
      ∃ st, dictGet input.stateRecords e.slug = some st ∧
        st.status = some "ok" ∧ st.lastmod = e.lastmod ∧ st.absentStreak = 0)
    (hrows : ∀ r ∈ input.existingRecords,
      r.id ∈ (discoveredOf args subs).map (·.slug))
    (hstatekeys : ∀ slug, (dictGet input.stateRecords slug).isSome →
      slug ∈ (discoveredOf args subs).map (·.slug))
    (hsorted : input.existingRecords.Pairwise rowOrder)
    (hkeys : (input.existingRecords.map rowKey).Nodup) :
    (computeSummary args subs input).toFetch = [] ∧
    (computeSummary args subs input).outputRecords = input.existingRecords ∧
    (∀ slug, (dictGet (computeSummary args subs input).nextStateRecords slug).map
        (fun st => (st.missingStreak, st.absentStreak)) =
      (dictGet input.stateRecords slug).map
        (fun st => (st.missingStreak, st.absentStreak))) := by
  obtain ⟨hkeysnd, hne, hflat⟩ := buildRowsBySlug_invariant input.existingRecords
  have hids := buildRowsBySlug_ids input.existingRecords
  have hnd := discoveredOf_slug_nodup args subs
  -- the scheduler classifies every discovered entity as reuse
  have hdec : ∀ e ∈ discoveredOf args subs,
      schedDecision args.fullRefresh (bootstrapOf args input) input.stateRecords
        (buildRowsBySlug input.existingRecords) e = false := by
    intro e he
    obtain ⟨hex, st, hst, hok, hlm, habs0⟩ := hsteady e he
    obtain ⟨r, hr⟩ := Option.isSome_iff_exists.mp hex
    unfold schedDecision shouldFetch
    rw [hfr, hst, hr]
    cases bootstrapOf args input <;> simp [hok, hlm]
  have htf : (schedOf args subs input).toFetch = [] := by
    unfold schedOf
    rw [schedFold_toFetch]
    simp only [List.nil_append]
    rw [List.filter_eq_nil_iff]
    intro e he
    simp [hdec e he]
  -- the fetch phase is a no-op
  have hfetchacc : fetchAccOf args subs input =
      ⟨(schedOf args subs input).nextRecords,
       (schedOf args subs input).nextStateRecords, 0, 0, 0⟩ := by
    dsimp only [fetchAccOf]
    rw [htf]
    rfl
  -- the reused dataset entries
  have hrecs : (fetchAccOf args subs input).nextRecords =
      (discoveredOf args subs).map (fun e =>
        (e.slug, (existingFirst (buildRowsBySlug input.existingRecords) e.slug).getD default)) := by
    rw [hfetchacc]
    show (schedOf args subs input).nextRecords = _
    unfold schedOf
    rw [schedFold_reuse_dict args.fullRefresh (bootstrapOf args input)
      input.stateRecords (buildRowsBySlug input.existingRecords) input.now
      (discoveredOf args subs) ⟨[], [], [], 0⟩ hnd hdec
      (fun e he => (hsteady e he).1) (fun e _ => rfl)]
    rfl
  -- keys of the groups dict all belong to discovery
  have hkeys_sub : ∀ g ∈ buildRowsBySlug input.existingRecords,
      g.1 ∈ (discoveredOf args subs).map (·.slug) := by
    intro g hg
    obtain ⟨r, hr⟩ := List.exists_mem_of_ne_nil g.2 (hne g hg)
    have hrflat : r ∈ ((buildRowsBySlug input.existingRecords).map (·.2)).flatten :=
      List.mem_flatten.mpr ⟨g.2, List.mem_map_of_mem (·.2) hg, hr⟩
    have hrmem : r ∈ input.existingRecords :=
      List.mem_of_mem_filter (hflat.mem_iff.mp hrflat)
    have := hrows r hrmem
    rwa [hids g hg r hr] at this
  -- every group key still has a next Record
  have hmapkeysnd : (dictKeys ((discoveredOf args subs).map (fun e =>
      (e.slug, (existingFirst (buildRowsBySlug input.existingRecords) e.slug).getD default)))).Nodup := by
    unfold dictKeys
    rw [List.map_map]
    exact hnd
  have hactive : ∀ g ∈ buildRowsBySlug input.existingRecords,
      (dictGet (fetchAccOf args subs input).nextRecords g.1).isSome := by
    intro g hg
    obtain ⟨e, he, heq⟩ := List.mem_map.mp (hkeys_sub g hg)
    rw [hrecs, ← heq]
    rw [dictGet_of_mem_nodup _ hmapkeysnd _
      (List.mem_map_of_mem (fun e => (e.slug,
        (existingFirst (buildRowsBySlug input.existingRecords) e.slug).getD default)) he)]
    rfl
  -- the absent pass neither touches state nor retains anything new
  obtain ⟨habs1, habs2, habs3⟩ := absentFold_all_active input.stateRecords
    ((discoveredOf args subs).map (·.slug)) (fetchAccOf args subs input).nextRecords
    (buildRowsBySlug input.existingRecords)
    ⟨(fetchAccOf args subs input).nextStateRecords, [], 0, 0⟩ hactive
  have habsacc1 : (absAccOf args subs input).nextStateRecords =
      (fetchAccOf args subs input).nextStateRecords := by
    unfold absAccOf
    rw [habs1]
  have habsacc2 : (absAccOf args subs input).preservedRows =
      (((buildRowsBySlug input.existingRecords).map (fun g => g.2.tail)).flatten) := by
    unfold absAccOf
    rw [habs2]
    rfl
  -- there are no rows with empty ids
  have hkey_ne : ∀ g ∈ buildRowsBySlug input.existingRecords, g.1 ≠ "" := by
    intro g hg hceq
    obtain ⟨r, hr⟩ := List.exists_mem_of_ne_nil g.2 (hne g hg)
    have hrflat : r ∈ ((buildRowsBySlug input.existingRecords).map (·.2)).flatten :=
      List.mem_flatten.mpr ⟨g.2, List.mem_map_of_mem (·.2) hg, hr⟩
    have hrfil := hflat.mem_iff.mp hrflat
    have := (List.mem_filter.mp hrfil).2
    rw [hids g hg r hr, hceq] at this
    simp at this
  have hfilter_self : input.existingRecords.filter (fun r => ¬ r.id = "") =
      input.existingRecords := by
    rw [List.filter_eq_self]
    intro r hrmem
    obtain ⟨e, he, heq⟩ := List.mem_map.mp (hrows r hrmem)
    obtain ⟨rr, hrr⟩ := Option.isSome_iff_exists.mp (hsteady e he).1
    have hget : (dictGet (buildRowsBySlug input.existingRecords) e.slug).isSome := by
      unfold existingFirst at hrr
      cases hcase : dictGet (buildRowsBySlug input.existingRecords) e.slug with
      | none => rw [hcase] at hrr; cases hrr
      | some g => rfl
    obtain ⟨grp, hgrp⟩ := Option.isSome_iff_exists.mp hget
    have hne' := hkey_ne (e.slug, grp) (dictGet_some_mem _ _ _ hgrp)
    simp only [decide_eq_true_eq]
    intro hc
    exact hne' (heq.trans hc)
  -- the head of each group is its reused Record
  have hhead : ∀ g ∈ buildRowsBySlug input.existingRecords,
      (existingFirst (buildRowsBySlug input.existingRecords) g.1).getD default =
        g.2.headI := by
    intro g hg
    unfold existingFirst
    rw [dictGet_of_mem_nodup _ hkeysnd _ hg]
    cases hcase : g.2 with
    | nil => exact absurd hcase (hne g hg)
    | cons a t => simp
  -- discovery slugs are a permutation of the group keys
  have hslugperm : ((discoveredOf args subs).map (·.slug)).Perm
      (dictKeys (buildRowsBySlug input.existingRecords)) := by
    rw [List.perm_ext_iff_of_nodup hnd hkeysnd]
    intro s
    constructor
    · intro hs
      obtain ⟨e, he, heq⟩ := List.mem_map.mp hs
      obtain ⟨rr, hrr⟩ := Option.isSome_iff_exists.mp (hsteady e he).1
      have hget : (dictGet (buildRowsBySlug input.existingRecords) e.slug).isSome := by
        unfold existingFirst at hrr
        cases hcase : dictGet (buildRowsBySlug input.existingRecords) e.slug with
        | none => rw [hcase] at hrr; cases hrr
        | some g => rfl
      obtain ⟨grp, hgrp⟩ := Option.isSome_iff_exists.mp hget
      rw [← heq]
      exact List.mem_map_of_mem (·.1) (dictGet_some_mem _ _ _ hgrp)
    · intro hs
      obtain ⟨g, hg, heq⟩ := List.mem_map.mp hs
      rw [← heq]
      exact hkeys_sub g hg
  -- the pre-sort output list is a permutation of the input dataset
  have hXperm : (dictValues (fetchAccOf args subs input).nextRecords ++
      (absAccOf args subs input).preservedRows).Perm input.existingRecords := by
    rw [habsacc2, hrecs]
    have hvals : dictValues ((discoveredOf args subs).map (fun e =>
        (e.slug, (existingFirst (buildRowsBySlug input.existingRecords) e.slug).getD default))) =
        ((discoveredOf args subs).map (·.slug)).map (fun k =>
          (existingFirst (buildRowsBySlug input.existingRecords) k).getD default) := by
      unfold dictValues
      rw [List.map_map, List.map_map]
      rfl
    rw [hvals]
    have hheads : (dictKeys (buildRowsBySlug input.existingRecords)).map (fun k =>
        (existingFirst (buildRowsBySlug input.existingRecords) k).getD default) =
        (buildRowsBySlug input.existingRecords).map (fun g => g.2.headI) := by
      unfold dictKeys
      rw [List.map_map]
      exact List.map_congr_left (fun g hg => hhead g hg)
    refine (List.Perm.append_right _ (hslugperm.map _)).trans ?_
    rw [hheads]
    refine (flatten_heads_tails (buildRowsBySlug input.existingRecords) hne).symm.trans ?_
    refine hflat.trans ?_
    rw [hfilter_self]
  -- the sorted output equals the input dataset
  have houtperm : (outputRecordsOf args subs input).Perm input.existingRecords := by
    unfold outputRecordsOf
    exact (List.perm_insertionSort rowOrder _).trans hXperm
  have hout : outputRecordsOf args subs input = input.existingRecords := by
    refine sorted_unique_keys _ _ houtperm ?_ hsorted ?_
    · exact List.sorted_insertionSort rowOrder _
    · exact ((houtperm.map rowKey).symm.nodup) hkeys
  refine ⟨htf, hout, ?_⟩
  -- streak counters are untouched
  intro slug
  have hstate : (computeSummary args subs input).nextStateRecords =
      (schedOf args subs input).nextStateRecords := by
    show (absAccOf args subs input).nextStateRecords = _
    rw [habsacc1, hfetchacc]
  rw [hstate]
  by_cases hds : slug ∈ (discoveredOf args subs).map (·.slug)
  · obtain ⟨e, he, heq⟩ := List.mem_map.mp hds
    obtain ⟨hex, st, hst, hok, hlm, habs0⟩ := hsteady e he
    subst heq
    have hlook := schedFold_reuse_lookup args.fullRefresh (bootstrapOf args input)
      input.stateRecords (buildRowsBySlug input.existingRecords) input.now
      (discoveredOf args subs) ⟨[], [], [], 0⟩ e hnd he (hdec e he) rfl
    have : (schedOf args subs input).nextStateRecords =
        ((discoveredOf args subs).foldl (scheduleStep args.fullRefresh
          (bootstrapOf args input) input.stateRecords
          (buildRowsBySlug input.existingRecords) input.now) ⟨[], [], [], 0⟩).nextStateRecords := rfl
    rw [this, hlook.2, hst]
    simp [reusedState, hst, habs0]
  · have h₁ : dictGet (schedOf args subs input).nextStateRecords slug = none := by
      cases hcase : dictGet (schedOf args subs input).nextStateRecords slug with
      | none => rfl
      | some st =>
          exfalso
          have : (dictGet (schedOf args subs input).nextStateRecords slug).isSome := by
            rw [hcase]; rfl
          unfold schedOf at this
          rcases schedFold_state_keys _ _ _ _ _ _ _ _ this with h' | h'
          · simp [dictGet] at h'
          · exact hds h'
    have h₂ : dictGet input.stateRecords slug = none := by
      cases hcase : dictGet input.stateRecords slug with
      | none => rfl
      | some st =>
          exfalso
          exact hds (hstatekeys slug (by rw [hcase]; rfl))
    rw [h₁, h₂]


/-- A fetch function whose every answer is `missing` (remote unchanged and
still serving 404 for the entity). -/
def missFetchFn : SitemapEntry → FetchOutcome := fun _ => missOutcomeB

/-- First run: entity `a` is known with a one-run missing streak, a matching
sitemap `lastmod`, and the remote still reports `missing`. -/
def missingRun1 : RunInput :=
  { existingRecords := [{ id := "a", name := "A" }]
    stateRecords := [("a", { status := some "missing", missingStreak := 1,
                             lastmod := some "2024-01-01" })]
    discovery := .indexOk [.ok [sampleEntry]]
    fetchFn := missFetchFn
    now := "2025-01-01T00:00:00Z" }

/-- Second run, immediately after `missingRun1` completed, with the remote
source unchanged and the state store intact. -/
def missingRun2 : RunInput :=
  { existingRecords := (computeSummary {} [.ok [sampleEntry]] missingRun1).outputRecords
    stateRecords := (computeSummary {} [.ok [sampleEntry]] missingRun1).nextStateRecords
    discovery := .indexOk [.ok [sampleEntry]]
    fetchFn := missFetchFn
    now := "2025-01-02T00:00:00Z" }

/-- C6 counterexample: after a completed run that left an entity in `missing`
status, a second run with the remote unchanged re-fetches that entity (one
fetch dispatched, not zero) and its `missingStreak` changes from 2 to 3 — the
run is not idempotent as claimed. -/
theorem idempotence_fails :
    runMain {} missingRun1 =
      .written (computeSummary {} [.ok [sampleEntry]] missingRun1) ∧
    (computeSummary {} [.ok [sampleEntry]] missingRun2).toFetch = [sampleEntry] ∧
    (dictGet (computeSummary {} [.ok [sampleEntry]] missingRun2).nextStateRecords
        "a").map (fun st => st.missingStreak) = some 3 ∧
    (dictGet (computeSummary {} [.ok [sampleEntry]] missingRun1).nextStateRecords
        "a").map (fun st => st.missingStreak) = some 2 :=
  ⟨rfl, by decide, by decide, by decide⟩

/-- A steady-state run: the single discovered entity has an `ok` state row
with matching `lastmod` and a Record in the dataset. -/
def steadyInput : RunInput :=
  { existingRecords := [{ id := "a", name := "A" }]
    stateRecords := [("a", { status := some "ok", lastmod := some "2024-01-01" })]
    discovery := .indexOk [.ok [sampleEntry]]
    fetchFn := okFetchFn
    now := "2025-01-02T00:00:00Z" }

/-- Witness for `second_run_idempotent` at a concrete steady-state run. -/
theorem second_run_idempotent_witness :
    (computeSummary {} [.ok [sampleEntry]] steadyInput).toFetch = [] ∧
    (computeSummary {} [.ok [sampleEntry]] steadyInput).outputRecords =
      steadyInput.existingRecords := by
  have h := second_run_idempotent {} steadyInput [.ok [sampleEntry]] rfl
    (by
      intro e he
      have hdisc : discoveredOf {} [.ok [sampleEntry]] = [sampleEntry] := by decide
      rw [hdisc] at he
      have he' : e = sampleEntry := by simpa using he
      subst he'
      exact ⟨by decide,
        ⟨{ status := some "ok", lastmod := some "2024-01-01" }, by decide,
          rfl, by decide, rfl⟩⟩)
    (by decide)
    (by
      intro slug hs
      by_cases hc : slug = "a"
      · subst hc
        decide
      · exfalso
        have hnone : dictGet steadyInput.stateRecords slug = none := by
          show dictGet [("a", _)] slug = none
          have hca : ¬ "a" = slug := fun hh => hc hh.symm
          simp [dictGet, hca]
        rw [hnone] at hs
        cases hs)
    (by decide) (by decide)
  exact ⟨h.1, h.2.1⟩

end MedicamentsUpdater
